import Mathlib

/-!
# Verification of the RedisCRD reconciler

Shallow embedding of `internal/controller/rediscrd_controller.go` and
`internal/controller/redis_helper.go`.

The Go code talks to the cluster through `client.Client`.  The client is embedded as an
explicit state (`Client`): the records held by the API server, a fault schedule that lets
any call fail with any error, and the log of the calls issued so far together with what
each returned.  Go functions that mutate `*RedisCRD` through the pointer return the
mutated object next to their Go results.
-/

set_option autoImplicit false
set_option linter.dupNamespace false

namespace RedisCrd

/-! ## Data model -/

/-- Errors of the resource store: the `errors.IsNotFound` and `errors.IsAlreadyExists`
classes the code tests for, the update conflict, and any other (transient) failure. -/
inductive StoreErr where
  | notFound
  | alreadyExists
  | conflict
  | unavailable
  deriving DecidableEq, Repr

/-- Owner reference (`metav1.OwnerReference`), the fields the controller reads or sets. -/
structure OwnerReference where
  Kind : String
  Name : String
  Controller : Bool
  deriving DecidableEq, Repr

/-- Container port (`coreV1.ContainerPort`); `ContainerPort` is an `int32`. -/
structure ContainerPort where
  ContainerPort : Int
  deriving DecidableEq, Repr

/-- Container (`coreV1.Container`), the fields `CreateRedis` fills in. -/
structure Container where
  Name : String
  Image : String
  ImagePullPolicy : String
  Ports : List ContainerPort
  deriving DecidableEq, Repr

/-- Pod (`coreV1.Pod`), the fields the controller reads or sets. -/
structure Pod where
  Name : String
  Namespace : String
  Containers : List Container
  OwnerReferences : List OwnerReference
  deriving DecidableEq, Repr

/-- Modelled from the spec: the `RedisCRDSpec` type of `api/v1` is not among the sources;
the spec gives it a desired count and a port, both Go `int`. -/
structure RedisCRDSpec where
  Num : Int
  Port : Int
  deriving DecidableEq, Repr

/-- Modelled from the spec: the `RedisCRD` type of `api/v1` is not among the sources.  It
carries the object metadata the controller uses (name, namespace, finalizers, deletion
timestamp) and the spec.  `DeletionTimestamp` is a `*metav1.Time`: `none` is the nil
pointer, `some t` the time with `t` ticks. -/
structure RedisCRD where
  Name : String
  Namespace : String
  Spec : RedisCRDSpec
  Finalizers : List String
  DeletionTimestamp : Option Nat
  deriving DecidableEq, Repr

/-- The `IsZero` method of `*metav1.Time`: true for the nil pointer and for the zero time. -/
def IsZero : Option Nat → Bool
  | none => true
  | some t => t == 0

/-- Reconcile request (`reconcile.Request`, a `types.NamespacedName`). -/
structure Request where
  Namespace : String
  Name : String
  deriving DecidableEq, Repr

/-- Reconcile result (`ctrl.Result`). -/
structure Result where
  Requeue : Bool
  RequeueAfter : Nat
  deriving DecidableEq, Repr

/-- The empty `ctrl.Result{}`. -/
def Result.empty : Result := ⟨false, 0⟩

/-- Outcome of a Go function: it returns a value or the goroutine panics (index out of
range). -/
inductive Ret (α : Type) where
  | val (a : α)
  | panic
  deriving DecidableEq, Repr

/-- Go conversion `int32(x)` of an `int`: the low 32 bits, read as a signed number. -/
def int32 (x : Int) : Int :=
  (x + 2 ^ 31) % 2 ^ 32 - 2 ^ 31

/-! ## The resource store -/

/-- A call issued to the resource store. -/
inductive Call where
  | getCRD (ns name : String)
  | getPod (ns name : String)
  | createPod (pod : Pod)
  | deletePod (ns name : String)
  | updateCRD (obj : RedisCRD)
  deriving DecidableEq, Repr

/-- The client handle with the server state behind it.  `faults k = some e` makes the
`k`-th call issued through this client (counting from 0) fail with `e` and leave the
store as it is; with `faults k = none` the call acts on the records.  `calls` logs every
call with the error it returned (`none` is a nil error). -/
structure Client where
  crds : List RedisCRD
  pods : List Pod
  faults : Nat → Option StoreErr
  calls : List (Call × Option StoreErr)

/-- Append a call and its outcome to the log. -/
def Client.record (c : Client) (call : Call) (res : Option StoreErr) : Client :=
  { c with calls := c.calls ++ [(call, res)] }

/-- Does the record have this namespace and name? -/
def RedisCRD.hasKey (ns name : String) (r : RedisCRD) : Bool :=
  r.Namespace == ns && r.Name == name

/-- Does the pod have this namespace and name? -/
def Pod.hasKey (ns name : String) (p : Pod) : Bool :=
  p.Namespace == ns && p.Name == name

/-- Store `get` of a parent: the record, or NotFound. -/
def Client.GetCRD (c : Client) (ns name : String) : Client × Except StoreErr RedisCRD :=
  match c.faults c.calls.length with
  | some e => (c.record (.getCRD ns name) (some e), .error e)
  | none =>
    match c.crds.find? (RedisCRD.hasKey ns name) with
    | some r => (c.record (.getCRD ns name) none, .ok r)
    | none => (c.record (.getCRD ns name) (some .notFound), .error .notFound)

/-- Store `get` of a child: the pod, or NotFound. -/
def Client.GetPod (c : Client) (ns name : String) : Client × Except StoreErr Pod :=
  match c.faults c.calls.length with
  | some e => (c.record (.getPod ns name) (some e), .error e)
  | none =>
    match c.pods.find? (Pod.hasKey ns name) with
    | some p => (c.record (.getPod ns name) none, .ok p)
    | none => (c.record (.getPod ns name) (some .notFound), .error .notFound)

/-- Store `create` of a child: AlreadyExists when a pod of that namespace and name is
stored, otherwise the pod is added. -/
def Client.Create (c : Client) (pod : Pod) : Client × Option StoreErr :=
  match c.faults c.calls.length with
  | some e => (c.record (.createPod pod) (some e), some e)
  | none =>
    if c.pods.any (Pod.hasKey pod.Namespace pod.Name) then
      (c.record (.createPod pod) (some .alreadyExists), some .alreadyExists)
    else
      ({ c with pods := c.pods ++ [pod] }.record (.createPod pod) none, none)

/-- Store `delete` of a child: NotFound when no pod of that namespace and name is stored,
otherwise the pod is removed. -/
def Client.Delete (c : Client) (ns name : String) : Client × Option StoreErr :=
  match c.faults c.calls.length with
  | some e => (c.record (.deletePod ns name) (some e), some e)
  | none =>
    if c.pods.any (Pod.hasKey ns name) then
      let kept := c.pods.filter (fun p => !Pod.hasKey ns name p)
      ({ c with pods := kept }.record (.deletePod ns name) none, none)
    else
      (c.record (.deletePod ns name) (some .notFound), some .notFound)

/-- Store `update` of a parent: NotFound when the record is gone; otherwise the record is
replaced, and a record marked for deletion whose finalizers are now empty is purged (the
deletion guard of the store). -/
def Client.Update (c : Client) (obj : RedisCRD) : Client × Option StoreErr :=
  match c.faults c.calls.length with
  | some e => (c.record (.updateCRD obj) (some e), some e)
  | none =>
    if c.crds.any (RedisCRD.hasKey obj.Namespace obj.Name) then
      if !IsZero obj.DeletionTimestamp && obj.Finalizers.isEmpty then
        let kept := c.crds.filter (fun r => !RedisCRD.hasKey obj.Namespace obj.Name r)
        ({ c with crds := kept }.record (.updateCRD obj) none, none)
      else
        let stored := c.crds.map (fun r => if RedisCRD.hasKey obj.Namespace obj.Name r then obj else r)
        ({ c with crds := stored }.record (.updateCRD obj) none, none)
    else
      (c.record (.updateCRD obj) (some .notFound), some .notFound)

/-! ## `redis_helper.go` -/

/-- `isExistPod`: a `Get` of the pod; any error means "does not exist". -/
def isExistPod (client : Client) (podName : String) (redisConfig : RedisCRD) : Client × Bool :=
  match client.GetPod redisConfig.Namespace podName with
  | (c1, .error _) => (c1, false)
  | (c1, .ok _) => (c1, true)

/-- The pod `CreateRedis` builds, after `controllerutil.SetControllerReference` has set the
parent as controlling owner. -/
def newPod (podName : String) (redisConfig : RedisCRD) : Pod :=
  { Name := podName
    Namespace := redisConfig.Namespace
    Containers := [{ Name := podName
                     Image := "redis:5.0.14"
                     ImagePullPolicy := "IfNotPresent"
                     Ports := [{ ContainerPort := int32 redisConfig.Spec.Port }] }]
    OwnerReferences := [{ Kind := "RedisCRD", Name := redisConfig.Name, Controller := true }] }

/-- `CreateRedis`: returns the mutated `redisConfig` and the Go results `(string, error)`. -/
def CreateRedis (client : Client) (podName : String) (redisConfig : RedisCRD) :
    Client × RedisCRD × String × Option StoreErr :=
  match isExistPod client podName redisConfig with
  | (c1, true) => (c1, redisConfig, "", none)
  | (c1, false) =>
    let pod := newPod podName redisConfig
    match c1.Create pod with
    | (c2, err) =>
      if podName ∈ redisConfig.Finalizers then
        (c2, redisConfig, pod.Name, err)
      else
        (c2, { redisConfig with Finalizers := redisConfig.Finalizers ++ [podName] }, pod.Name, err)

/-- The `range redis.Finalizers` loop of `clearRedis`: the finalizers still to visit, the
client; returns the error that ended the loop early, if any. -/
def clearRedisLoop (ns : String) : List String → Client → Client × Option StoreErr
  | [], c => (c, none)
  | finalizer :: rest, c =>
    match c.Delete ns finalizer with
    | (c1, some err) =>
      if err = .notFound then clearRedisLoop ns rest c1 else (c1, some err)
    | (c1, none) => clearRedisLoop ns rest c1

/-- `clearRedis`: returns the mutated `redis` and the Go result `error`. -/
def clearRedis (client : Client) (redis : RedisCRD) : Client × RedisCRD × Option StoreErr :=
  match clearRedisLoop redis.Namespace redis.Finalizers client with
  | (c1, some err) => (c1, redis, some err)
  | (c1, none) =>
    let redis1 := { redis with Finalizers := [] }
    match c1.Update redis1 with
    | (c2, err) => (c2, redis1, err)

/-- The `for i := len(redis.Finalizers); i > num; i--` loop of `clearRedisUpdateNum`, by
recursion on `i`: the loop variable, the client, the object and the `err` variable.
`redis.Finalizers[i-1]` panics when `i-1` is not an index of the slice. -/
def clearRedisUpdateNumLoop (num : Int) :
    Nat → Client → RedisCRD → Option StoreErr → Client × RedisCRD × Ret (Option StoreErr)
  | 0, c, redis, err =>
    if (0 : Int) > num then (c, redis, .panic) else (c, redis, .val err)
  | i + 1, c, redis, err =>
    if ((i + 1 : Nat) : Int) > num then
      match redis.Finalizers.get? i with
      | none => (c, redis, .panic)
      | some name =>
        match c.Delete redis.Namespace name with
        | (c1, err1) =>
          clearRedisUpdateNumLoop num i c1 { redis with Finalizers := redis.Finalizers.take i } err1
    else (c, redis, .val err)

/-- `clearRedisUpdateNum`: returns the mutated `redis` and the Go result `error`, or
panics. -/
def clearRedisUpdateNum (client : Client) (redis : RedisCRD) :
    Client × RedisCRD × Ret (Option StoreErr) :=
  let num := redis.Spec.Num
  if redis.Finalizers.length ≤ 0 then (client, redis, .val none)
  else
    match clearRedisUpdateNumLoop num redis.Finalizers.length client redis none with
    | (c1, redis1, .panic) => (c1, redis1, .panic)
    | (c1, redis1, .val (some err)) => (c1, redis1, .val (some err))
    | (c1, redis1, .val none) =>
      match c1.Update redis1 with
      | (c2, err) => (c2, redis1, .val err)

/-- The `range references` loop of `podDeleteHandler`: the queue after the `Add` calls. -/
def podDeleteHandlerLoop (ns : String) : List OwnerReference → List Request → List Request
  | [], queue => queue
  | v :: rest, queue =>
    if v.Kind == "RedisCRD" && v.Name == "rediscrd-sample" then
      podDeleteHandlerLoop ns rest (queue ++ [{ Namespace := ns, Name := v.Name }])
    else podDeleteHandlerLoop ns rest queue

/-- Delete event (`event.DeleteEvent`): the deleted object. -/
structure DeleteEvent where
  Object : Pod
  deriving DecidableEq, Repr

/-- `podDeleteHandler`: the work queue is the list of requests added to it, in order. -/
def podDeleteHandler (event : DeleteEvent) (limitingInterface : List Request) : List Request :=
  podDeleteHandlerLoop event.Object.Namespace event.Object.OwnerReferences limitingInterface

/-! ## `rediscrd_controller.go` -/

/-- The pod name `fmt.Sprintf("%s-%d", redis.Name, i)`. -/
def podNameOf (name : String) (i : Nat) : String :=
  name ++ "-" ++ toString i

/-- The `for i := 1; i <= num; i++` loop of `Reconcile`: the number of iterations left, the
loop variable, the client and the object; returns the error that ended the loop early. -/
def createLoop : Nat → Nat → Client → RedisCRD → Client × RedisCRD × Option StoreErr
  | 0, _, c, redis => (c, redis, none)
  | left + 1, i, c, redis =>
    match CreateRedis c (podNameOf redis.Name i) redis with
    | (c1, redis1, _, some err) =>
      if err = .alreadyExists then createLoop left (i + 1) c1 redis1
      else (c1, redis1, some err)
    | (c1, redis1, _, none) => createLoop left (i + 1) c1 redis1

/-- What a run of `Reconcile` leaves: the client, the in-memory object (`none` when the
fetch failed) and the Go results `(ctrl.Result, error)`, or a panic. -/
structure Reconciled where
  client : Client
  redis : Option RedisCRD
  ret : Ret (Result × Option StoreErr)

/-- `Reconcile`. -/
def Reconcile (client : Client) (req : Request) : Reconciled :=
  match client.GetCRD req.Namespace req.Name with
  | (c1, .error _) => ⟨c1, none, .val (Result.empty, none)⟩
  | (c1, .ok redis) =>
    if !IsZero redis.DeletionTimestamp then
      match clearRedis c1 redis with
      | (c2, redis2, err) => ⟨c2, some redis2, .val (Result.empty, err)⟩
    else
      let num := redis.Spec.Num
      if (redis.Finalizers.length : Int) > num then
        match clearRedisUpdateNum c1 redis with
        | (c2, redis2, .panic) => ⟨c2, some redis2, .panic⟩
        | (c2, redis2, .val _) => ⟨c2, some redis2, .val (Result.empty, none)⟩
      else
        match createLoop num.toNat 1 c1 redis with
        | (c2, redis2, some err) => ⟨c2, some redis2, .val (Result.empty, some err)⟩
        | (c2, redis2, none) =>
          match c2.Update redis2 with
          | (c3, err) => ⟨c3, some redis2, .val (Result.empty, err)⟩

/-! ## Reading the call log -/

/-- The calls a run added to the log of `before`. -/
def newCalls (before after : Client) : List (Call × Option StoreErr) :=
  after.calls.drop before.calls.length

/-- The pods of the `create` calls of a log, in order. -/
def createsOf : List (Call × Option StoreErr) → List Pod
  | [] => []
  | (.createPod p, _) :: rest => p :: createsOf rest
  | _ :: rest => createsOf rest

/-- The (namespace, name) keys of the `delete` calls of a log, in order. -/
def deletesOf : List (Call × Option StoreErr) → List (String × String)
  | [] => []
  | (.deletePod ns name, _) :: rest => (ns, name) :: deletesOf rest
  | _ :: rest => deletesOf rest

/-- The objects of the `update` calls of a log, in order. -/
def updatesOf : List (Call × Option StoreErr) → List RedisCRD
  | [] => []
  | (.updateCRD obj, _) :: rest => obj :: updatesOf rest
  | _ :: rest => updatesOf rest

/-- A client without injected faults: every call acts on the records. -/
def Client.faultFree (c : Client) : Prop := ∀ k, c.faults k = none

/-! ## Specification vocabulary -/

/-- Value of a decimal digit string read left to right, starting from `a`. -/
def decimalValue (a : Nat) (ds : List Char) : Nat :=
  ds.foldl (fun v ch => 10 * v + (ch.toNat - 48)) a

/-- The pod names of the indices `i, i+1, ..., i+left-1` of a parent. -/
def podNames (name : String) (i left : Nat) : List String :=
  (List.range' i left).map (podNameOf name)

/-- The names among `names` for which the store holds no pod in namespace `ns`. -/
def missingPods (pods : List Pod) (ns : String) (names : List String) : List String :=
  names.filter (fun nm => !pods.any (Pod.hasKey ns nm))

/-- The pod names of the indices `i, ..., i+left-1` of `redis` that the store of `c` lacks. -/
def missingOf (c : Client) (redis : RedisCRD) (i left : Nat) : List String :=
  missingPods c.pods redis.Namespace (podNames redis.Name i left)

/-- The record a `get` of the parent would fetch from the store, faults apart. -/
def Client.stored (c : Client) (req : Request) : Option RedisCRD :=
  c.crds.find? (RedisCRD.hasKey req.Namespace req.Name)

/-- The object the create loop leaves in memory when no call fails: the pod names the
store lacked are appended to the finalizers unless they are already there. -/
def scaledUp (c : Client) (redis : RedisCRD) : RedisCRD :=
  { redis with Finalizers := redis.Finalizers ++
      (missingOf c redis 1 redis.Spec.Num.toNat).filter (fun nm => !decide (nm ∈ redis.Finalizers)) }

/-- The records after an update that stores `obj` in place of the record of its key. -/
def replaceCRD (crds : List RedisCRD) (obj : RedisCRD) : List RedisCRD :=
  crds.map (fun r => if RedisCRD.hasKey obj.Namespace obj.Name r then obj else r)

/-! ## Sample inputs -/

/-- A parent `rediscrd-sample` in namespace `default` wanting three pods, nothing tracked. -/
def sampleParent : RedisCRD :=
  { Name := "rediscrd-sample", Namespace := "default", Spec := ⟨3, 6379⟩, Finalizers := [],
    DeletionTimestamp := none }

/-- The key of `sampleParent`. -/
def sampleReq : Request := ⟨"default", "rediscrd-sample"⟩

/-- An unrelated pod. -/
def otherPod : Pod := ⟨"web-1", "default", [], []⟩

/-- A store with `sampleParent` and one unrelated pod; no fault, empty log. -/
def freshClient : Client :=
  { crds := [sampleParent], pods := [otherPod], faults := fun _ => none, calls := [] }

/-- The errors returned by the `delete` calls of a log, in order (`none` is a nil error). -/
def deleteResultsOf : List (Call × Option StoreErr) → List (Option StoreErr)
  | [] => []
  | (.deletePod _ _, res) :: rest => res :: deleteResultsOf rest
  | _ :: rest => deleteResultsOf rest

/-- The log entries of `delete` calls in namespace `ns` for the given names and results. -/
def deleteEntries (ns : String) (ps : List (String × Option StoreErr)) :
    List (Call × Option StoreErr) :=
  ps.map (fun p => (Call.deletePod ns p.1, p.2))

/-- A parent with five tracked pods whose desired count was lowered to two. -/
def shrunkParent : RedisCRD :=
  { Name := "rediscrd-sample", Namespace := "default", Spec := ⟨2, 6379⟩,
    Finalizers := podNames "rediscrd-sample" 1 5, DeletionTimestamp := none }

/-- A store with `shrunkParent` and its five pods; no fault, empty log. -/
def shrunkClient : Client :=
  { crds := [shrunkParent]
    pods := (podNames "rediscrd-sample" 1 5).map (fun nm => newPod nm shrunkParent)
    faults := fun _ => none
    calls := [] }

/-- A parent marked for deletion that tracks two pods and still asks for three. -/
def deletingParent : RedisCRD :=
  { Name := "rediscrd-sample", Namespace := "default", Spec := ⟨3, 6379⟩,
    Finalizers := podNames "rediscrd-sample" 1 2, DeletionTimestamp := some 1700000000 }

/-- A store with `deletingParent` where only the first tracked pod is left; the `k`-th
call fails with `e` when `fault = some (k, e)`. -/
def deletingClient (fault : Option (Nat × StoreErr)) : Client :=
  { crds := [deletingParent]
    pods := [newPod (podNameOf "rediscrd-sample" 1) deletingParent]
    faults := fun k =>
      match fault with
      | some (j, e) => if k = j then some e else none
      | none => none
    calls := [] }

/-- A store without any parent record, holding one pod; no fault, empty log. -/
def orphanClient : Client :=
  { crds := [], pods := [otherPod], faults := fun _ => none, calls := [] }

/-- A parent tracking three pods whose desired count was lowered to two. -/
def loweredParent : RedisCRD :=
  { Name := "rediscrd-sample", Namespace := "default", Spec := ⟨2, 6379⟩,
    Finalizers := podNames "rediscrd-sample" 1 3, DeletionTimestamp := none }

/-- A store with `loweredParent` in which the first tracked pod was deleted by another
actor: only pods 2 and 3 are left; no fault, empty log. -/
def loweredClient : Client :=
  { crds := [loweredParent]
    pods := (podNames "rediscrd-sample" 2 2).map (fun nm => newPod nm loweredParent)
    faults := fun _ => none
    calls := [] }

/-- A parent wanting three pods and tracking all three. -/
def trackedParent : RedisCRD :=
  { Name := "rediscrd-sample", Namespace := "default", Spec := ⟨3, 6379⟩,
    Finalizers := podNames "rediscrd-sample" 1 3, DeletionTimestamp := none }

/-- A store with `trackedParent` in which pod 2 was deleted by another actor: pods 1 and 3
are left; no fault, empty log. -/
def healClient : Client :=
  { crds := [trackedParent]
    pods := [newPod (podNameOf "rediscrd-sample" 1) trackedParent,
             newPod (podNameOf "rediscrd-sample" 3) trackedParent]
    faults := fun _ => none
    calls := [] }

/-- The fault schedule that fails the `j`-th call with `e` and no other call. -/
def faultAt (j : Nat) (e : StoreErr) : Nat → Option StoreErr :=
  fun k => if k = j then some e else none

/-- A parent of the same kind under another name. -/
def cacheParent : RedisCRD :=
  { Name := "cache", Namespace := "default", Spec := ⟨3, 6379⟩,
    Finalizers := podNames "cache" 1 3, DeletionTimestamp := none }

/-- The delete event of pod `cache-2`, which `CreateRedis` made for `cacheParent`. -/
def cacheEvent : DeleteEvent := ⟨newPod (podNameOf "cache" 2) cacheParent⟩

/-- The delete event of pod `rediscrd-sample-2`, which `CreateRedis` made for
`trackedParent`. -/
def sampleEvent : DeleteEvent := ⟨newPod (podNameOf "rediscrd-sample" 2) trackedParent⟩

/-- The (namespace, name) keys of the pod `get` calls of a log, in order. -/
def getsOf : List (Call × Option StoreErr) → List (String × String)
  | [] => []
  | (.getPod ns name, _) :: rest => (ns, name) :: getsOf rest
  | _ :: rest => getsOf rest

/-- The errors returned by the `create` calls of a log, in order (`none` is a nil error). -/
def createResultsOf : List (Call × Option StoreErr) → List (Option StoreErr)
  | [] => []
  | (.createPod _, res) :: rest => res :: createResultsOf rest
  | _ :: rest => createResultsOf rest

/-- The object after the finalizer bookkeeping at the end of `CreateRedis`: `podName` is
appended unless it is already among the finalizers. -/
def withFinalizer (redis : RedisCRD) (podName : String) : RedisCRD :=
  if podName ∈ redis.Finalizers then redis
  else { redis with Finalizers := redis.Finalizers ++ [podName] }

/-- A store with `sampleParent` (three pods wanted, nothing tracked) in which pod 1 already
exists, as left by a concurrent actor; the `k`-th call fails with `e` when
`fault = some (k, e)`. -/
def racingClient (fault : Option (Nat × StoreErr)) : Client :=
  { crds := [sampleParent]
    pods := [newPod (podNameOf "rediscrd-sample" 1) sampleParent]
    faults := fun k =>
      match fault with
      | some (j, e) => if k = j then some e else none
      | none => none
    calls := [] }

/-- A parent with a negative desired count and the given tracker. -/
def negativeParent (tracker : List String) : RedisCRD :=
  { Name := "rediscrd-sample", Namespace := "default", Spec := ⟨-1, 6379⟩,
    Finalizers := tracker, DeletionTimestamp := none }

/-- A store with `negativeParent tracker` and no pod; no fault, empty log. -/
def negativeClient (tracker : List String) : Client :=
  { crds := [negativeParent tracker], pods := [], faults := fun _ => none, calls := [] }

/-- A parent wanting one pod on port `2^32 + 6379`. -/
def widePortParent : RedisCRD :=
  { Name := "rediscrd-sample", Namespace := "default", Spec := ⟨1, 4294973675⟩,
    Finalizers := [], DeletionTimestamp := none }

/-- A store with `widePortParent` and no pod; no fault, empty log. -/
def widePortClient : Client :=
  { crds := [widePortParent], pods := [], faults := fun _ => none, calls := [] }

/-- A store with `loweredParent` (three tracked pods, two wanted) in which the third
tracked pod is already gone: pods 1 and 2 are left; no fault, empty log. -/
def goneClient : Client :=
  { crds := [loweredParent]
    pods := (podNames "rediscrd-sample" 1 2).map (fun nm => newPod nm loweredParent)
    faults := fun _ => none
    calls := [] }

/-! # Theorems -/

theorem digitChar_value (d : Nat) (h : d < 10) : (Nat.digitChar d).toNat - 48 = d := by
  interval_cases d <;> rfl

theorem decimalValue_toDigitsCore (fuel : Nat) :
    ∀ (n : Nat) (acc : List Char), n < fuel →
      decimalValue 0 (Nat.toDigitsCore 10 fuel n acc) = decimalValue n acc := by
  induction fuel with
  | zero => intro n acc h; omega
  | succ fuel ih =>
    intro n acc h
    simp only [Nat.toDigitsCore]
    split
    · rename_i h0
      have hn : n < 10 := by omega
      simp only [decimalValue, List.foldl_cons]
      rw [digitChar_value _ (Nat.mod_lt _ (by decide)), Nat.mod_eq_of_lt hn]
      simp
    · rename_i h0
      rw [ih (n / 10) _ (by omega)]
      simp only [decimalValue, List.foldl_cons]
      rw [digitChar_value _ (Nat.mod_lt _ (by decide))]
      congr 1
      omega

theorem toString_nat_injective {i j : Nat} (h : toString i = toString j) : i = j := by
  have hd : (Nat.toDigits 10 i) = (Nat.toDigits 10 j) := by
    have := congrArg String.data h
    simpa [toString, Nat.repr] using this
  have hi := decimalValue_toDigitsCore (i + 1) i [] (by omega)
  have hj := decimalValue_toDigitsCore (j + 1) j [] (by omega)
  simp only [Nat.toDigits] at hd
  rw [hd, hj] at hi
  simpa [decimalValue] using hi.symm

theorem podNameOf_injective (name : String) {i j : Nat}
    (h : podNameOf name i = podNameOf name j) : i = j := by
  apply toString_nat_injective
  have := congrArg String.data h
  simp only [podNameOf, String.data_append] at this
  exact String.ext (List.append_cancel_left this)

/-! ## The call log -/

theorem createsOf_append (l₁ l₂ : List (Call × Option StoreErr)) :
    createsOf (l₁ ++ l₂) = createsOf l₁ ++ createsOf l₂ := by
  induction l₁ with
  | nil => rfl
  | cons hd tl ih =>
    obtain ⟨call, res⟩ := hd
    cases call <;> simp [createsOf, ih]

theorem deletesOf_append (l₁ l₂ : List (Call × Option StoreErr)) :
    deletesOf (l₁ ++ l₂) = deletesOf l₁ ++ deletesOf l₂ := by
  induction l₁ with
  | nil => rfl
  | cons hd tl ih =>
    obtain ⟨call, res⟩ := hd
    cases call <;> simp [deletesOf, ih]

theorem updatesOf_append (l₁ l₂ : List (Call × Option StoreErr)) :
    updatesOf (l₁ ++ l₂) = updatesOf l₁ ++ updatesOf l₂ := by
  induction l₁ with
  | nil => rfl
  | cons hd tl ih =>
    obtain ⟨call, res⟩ := hd
    cases call <;> simp [updatesOf, ih]

theorem newCalls_of_append (before after : Client) (ext : List (Call × Option StoreErr))
    (h : after.calls = before.calls ++ ext) : newCalls before after = ext := by
  simp [newCalls, h]

/-! ## Store calls without injected faults -/

theorem find?_none_of_any_false {α : Type} (p : α → Bool) (l : List α)
    (h : l.any p = false) : l.find? p = none := by
  induction l with
  | nil => rfl
  | cons a t ih =>
    simp only [List.any_cons, Bool.or_eq_false_iff] at h
    simp [List.find?_cons, h.1, ih h.2]

theorem find?_isSome_of_any {α : Type} (p : α → Bool) (l : List α)
    (h : l.any p = true) : ∃ a, l.find? p = some a := by
  induction l with
  | nil => simp at h
  | cons a t ih =>
    by_cases ha : p a = true
    · exact ⟨a, by simp [List.find?_cons, ha]⟩
    · simp only [List.any_cons, Bool.or_eq_true] at h
      rcases h with h | h
      · exact absurd h ha
      · obtain ⟨b, hb⟩ := ih h
        exact ⟨b, by simp [List.find?_cons, ha, hb]⟩

theorem GetPod_present (c : Client) (ns name : String) (hf : c.faults c.calls.length = none)
    (h : c.pods.any (Pod.hasKey ns name) = true) :
    ∃ p, c.GetPod ns name = (c.record (.getPod ns name) none, .ok p) := by
  obtain ⟨p, hp⟩ := find?_isSome_of_any _ _ h
  exact ⟨p, by simp only [Client.GetPod, hf, hp]⟩

theorem GetPod_absent (c : Client) (ns name : String) (hf : c.faults c.calls.length = none)
    (h : c.pods.any (Pod.hasKey ns name) = false) :
    c.GetPod ns name = (c.record (.getPod ns name) (some .notFound), .error .notFound) := by
  simp only [Client.GetPod, hf, find?_none_of_any_false _ _ h]

theorem Create_absent (c : Client) (pod : Pod) (hf : c.faults c.calls.length = none)
    (h : c.pods.any (Pod.hasKey pod.Namespace pod.Name) = false) :
    c.Create pod = ({ c with pods := c.pods ++ [pod] }.record (.createPod pod) none, none) := by
  simp only [Client.Create, hf, h, Bool.false_eq_true, ↓reduceIte]

theorem CreateRedis_present (c : Client) (podName : String) (redis : RedisCRD)
    (hff : c.faultFree) (h : c.pods.any (Pod.hasKey redis.Namespace podName) = true) :
    CreateRedis c podName redis
      = (c.record (.getPod redis.Namespace podName) none, redis, "", none) := by
  obtain ⟨p, hp⟩ := GetPod_present c _ _ (hff _) h
  simp only [CreateRedis, isExistPod, hp]

theorem CreateRedis_absent (c : Client) (podName : String) (redis : RedisCRD)
    (hff : c.faultFree) (h : c.pods.any (Pod.hasKey redis.Namespace podName) = false) :
    CreateRedis c podName redis
      = ({ crds := c.crds, pods := c.pods ++ [newPod podName redis], faults := c.faults,
           calls := c.calls ++ [(.getPod redis.Namespace podName, some .notFound),
                                (.createPod (newPod podName redis), none)] },
         (if podName ∈ redis.Finalizers then redis
          else { redis with Finalizers := redis.Finalizers ++ [podName] }),
         podName, none) := by
  have hg := GetPod_absent c _ _ (hff _) h
  have hc := Create_absent (c.record (.getPod redis.Namespace podName) (some .notFound))
    (newPod podName redis) (hff _) h
  simp only [CreateRedis, isExistPod, hg, hc]
  by_cases hm : podName ∈ redis.Finalizers
  · simp [hm, Client.record, newPod]
  · simp [hm, Client.record, newPod]

theorem missingPods_cons_present (pods : List Pod) (ns nm : String) (l : List String)
    (h : pods.any (Pod.hasKey ns nm) = true) :
    missingPods pods ns (nm :: l) = missingPods pods ns l := by
  simp [missingPods, List.filter_cons, h]

theorem missingPods_cons_absent (pods : List Pod) (ns nm : String) (l : List String)
    (h : pods.any (Pod.hasKey ns nm) = false) :
    missingPods pods ns (nm :: l) = nm :: missingPods pods ns l := by
  simp [missingPods, List.filter_cons, h]

theorem mem_of_mem_missingPods {pods : List Pod} {ns nm : String} {l : List String}
    (h : nm ∈ missingPods pods ns l) : nm ∈ l :=
  (List.mem_filter.mp h).1

theorem hasKey_newPod (ns nm nm' : String) (redis : RedisCRD) (hns : redis.Namespace = ns) :
    Pod.hasKey ns nm' (newPod nm redis) = (nm == nm') := by
  simp [Pod.hasKey, newPod, hns]

theorem missingPods_append_newPod (pods : List Pod) (nm : String) (redis : RedisCRD)
    (l : List String) (h : nm ∉ l) :
    missingPods (pods ++ [newPod nm redis]) redis.Namespace l
      = missingPods pods redis.Namespace l := by
  unfold missingPods
  apply List.filter_congr
  intro nm' hmem
  have hne : nm ≠ nm' := fun e => h (e ▸ hmem)
  simp [List.any_append, hasKey_newPod _ _ _ _ rfl, hne]

theorem podNames_succ (name : String) (i left : Nat) :
    podNames name i (left + 1) = podNameOf name i :: podNames name (i + 1) left := by
  simp [podNames, List.range'_succ]

theorem mem_podNames {name nm : String} {i left : Nat} :
    nm ∈ podNames name i left ↔ ∃ j, i ≤ j ∧ j < i + left ∧ podNameOf name j = nm := by
  simp [podNames, List.mem_range'_1, and_assoc]

theorem podNameOf_not_mem_podNames (name : String) (i j left : Nat) (h : i < j) :
    podNameOf name i ∉ podNames name j left := by
  intro hm
  obtain ⟨k, hk, _, he⟩ := mem_podNames.mp hm
  have := podNameOf_injective name he
  omega

theorem newPod_congr (nm : String) (r₁ r₂ : RedisCRD) (hn : r₁.Name = r₂.Name)
    (hs : r₁.Namespace = r₂.Namespace) (hp : r₁.Spec = r₂.Spec) :
    newPod nm r₁ = newPod nm r₂ := by
  simp [newPod, hn, hs, hp]

theorem createLoop_faultFree (left : Nat) :
    ∀ (i : Nat) (c : Client) (redis : RedisCRD), c.faultFree →
      ∃ ext,
        createLoop left i c redis
          = ({ crds := c.crds
               pods := c.pods ++ (missingOf c redis i left).map (fun nm => newPod nm redis)
               faults := c.faults
               calls := c.calls ++ ext },
             { redis with Finalizers := redis.Finalizers ++
                (missingOf c redis i left).filter (fun nm => !decide (nm ∈ redis.Finalizers)) },
             none)
        ∧ createsOf ext = (missingOf c redis i left).map (fun nm => newPod nm redis)
        ∧ deletesOf ext = [] ∧ updatesOf ext = [] := by
  unfold missingOf
  induction left with
  | zero =>
    intro i c redis _
    refine ⟨[], ?_, ?_, rfl, rfl⟩
    · simp [createLoop, podNames, missingPods]
    · simp [podNames, missingPods, createsOf]
  | succ left ih =>
    intro i c redis hff
    rw [podNames_succ]
    by_cases hex : c.pods.any (Pod.hasKey redis.Namespace (podNameOf redis.Name i)) = true
    · obtain ⟨ext, h1, h2, h3, h4⟩ :=
        ih (i + 1) (c.record (.getPod redis.Namespace (podNameOf redis.Name i)) none) redis hff
      refine ⟨(.getPod redis.Namespace (podNameOf redis.Name i), none) :: ext, ?_, ?_, ?_, ?_⟩
      · rw [createLoop, CreateRedis_present c _ _ hff hex]
        simp only []
        rw [h1, missingPods_cons_present _ _ _ _ hex]
        simp [Client.record]
      · rw [missingPods_cons_present _ _ _ _ hex]
        simpa [createsOf, Client.record] using h2
      · simpa [deletesOf] using h3
      · simpa [updatesOf] using h4
    · have hex : c.pods.any (Pod.hasKey redis.Namespace (podNameOf redis.Name i)) = false := by
        simpa using hex
      have hfresh := podNameOf_not_mem_podNames redis.Name i (i + 1) left (Nat.lt_succ_self i)
      rw [createLoop, CreateRedis_absent c _ _ hff hex, missingPods_cons_absent _ _ _ _ hex]
      by_cases hm : podNameOf redis.Name i ∈ redis.Finalizers
      · simp only [hm, ↓reduceIte]
        obtain ⟨ext, h1, h2, h3, h4⟩ := ih (i + 1)
          { crds := c.crds, pods := c.pods ++ [newPod (podNameOf redis.Name i) redis],
            faults := c.faults,
            calls := c.calls ++ [(.getPod redis.Namespace (podNameOf redis.Name i), some .notFound),
                                 (.createPod (newPod (podNameOf redis.Name i) redis), none)] }
          redis hff
        simp only [missingPods_append_newPod _ _ _ _ hfresh] at h1 h2
        refine ⟨(.getPod redis.Namespace (podNameOf redis.Name i), some .notFound) ::
          (.createPod (newPod (podNameOf redis.Name i) redis), none) :: ext, ?_, ?_, ?_, ?_⟩
        · rw [h1]
          simp [List.filter_cons, hm]
        · simpa [createsOf] using h2
        · simpa [deletesOf] using h3
        · simpa [updatesOf] using h4
      · simp only [hm, ↓reduceIte]
        obtain ⟨ext, h1, h2, h3, h4⟩ := ih (i + 1)
          { crds := c.crds, pods := c.pods ++ [newPod (podNameOf redis.Name i) redis],
            faults := c.faults,
            calls := c.calls ++ [(.getPod redis.Namespace (podNameOf redis.Name i), some .notFound),
                                 (.createPod (newPod (podNameOf redis.Name i) redis), none)] }
          { redis with Finalizers := redis.Finalizers ++ [podNameOf redis.Name i] } hff
        simp only [missingPods_append_newPod _ _ _ _ hfresh] at h1 h2
        have hflt : (missingPods c.pods redis.Namespace (podNames redis.Name (i + 1) left)).filter
              (fun nm => !decide (nm ∈ redis.Finalizers ++ [podNameOf redis.Name i]))
            = (missingPods c.pods redis.Namespace (podNames redis.Name (i + 1) left)).filter
              (fun nm => !decide (nm ∈ redis.Finalizers)) := by
          apply List.filter_congr
          intro nm' hmem
          have hne : nm' ≠ podNameOf redis.Name i :=
            fun e => hfresh (e ▸ mem_of_mem_missingPods hmem)
          simp [hne]
        refine ⟨(.getPod redis.Namespace (podNameOf redis.Name i), some .notFound) ::
          (.createPod (newPod (podNameOf redis.Name i) redis), none) :: ext, ?_, ?_, ?_, ?_⟩
        · rw [h1, hflt]
          simp [List.filter_cons, hm, newPod]
        · simp only [createsOf, h2]
          simp [newPod]
        · simpa [deletesOf] using h3
        · simpa [updatesOf] using h4

theorem stored_hasKey {c : Client} {req : Request} {redis : RedisCRD}
    (h : c.stored req = some redis) :
    redis.Namespace = req.Namespace ∧ redis.Name = req.Name := by
  have := List.find?_some h
  simpa [RedisCRD.hasKey] using this

theorem stored_any {c : Client} {req : Request} {redis : RedisCRD}
    (h : c.stored req = some redis) :
    c.crds.any (RedisCRD.hasKey redis.Namespace redis.Name) = true := by
  obtain ⟨h1, h2⟩ := stored_hasKey h
  rw [h1, h2, List.any_eq_true]
  exact ⟨redis, List.mem_of_find?_eq_some h, List.find?_some h⟩

theorem GetCRD_stored (c : Client) (req : Request) (redis : RedisCRD)
    (hf : c.faults c.calls.length = none) (h : c.stored req = some redis) :
    c.GetCRD req.Namespace req.Name
      = (c.record (.getCRD req.Namespace req.Name) none, .ok redis) := by
  unfold Client.stored at h
  simp only [Client.GetCRD, hf, h]

theorem Update_live (c : Client) (obj : RedisCRD) (hf : c.faults c.calls.length = none)
    (hex : c.crds.any (RedisCRD.hasKey obj.Namespace obj.Name) = true)
    (hz : IsZero obj.DeletionTimestamp = true) :
    c.Update obj
      = ({ c with crds := replaceCRD c.crds obj }.record (.updateCRD obj) none, none) := by
  simp [Client.Update, hf, hex, hz, replaceCRD]

theorem Reconcile_scaleUp_faultFree (c : Client) (req : Request) (redis : RedisCRD)
    (hff : c.faultFree) (hst : c.stored req = some redis)
    (hz : IsZero redis.DeletionTimestamp = true)
    (hle : (redis.Finalizers.length : Int) ≤ redis.Spec.Num) :
    ∃ ext,
      Reconcile c req
        = ⟨{ crds := replaceCRD c.crds (scaledUp c redis)
             pods := c.pods ++ (missingOf c redis 1 redis.Spec.Num.toNat).map (fun nm => newPod nm redis)
             faults := c.faults
             calls := c.calls ++ (.getCRD req.Namespace req.Name, none) ::
                (ext ++ [(.updateCRD (scaledUp c redis), none)]) },
           some (scaledUp c redis), .val (Result.empty, none)⟩
      ∧ createsOf ext = (missingOf c redis 1 redis.Spec.Num.toNat).map (fun nm => newPod nm redis)
      ∧ deletesOf ext = [] ∧ updatesOf ext = [] := by
  obtain ⟨ext, h1, h2, h3, h4⟩ := createLoop_faultFree redis.Spec.Num.toNat 1
    (c.record (.getCRD req.Namespace req.Name) none) redis hff
  refine ⟨ext, ?_, h2, h3, h4⟩
  have hnot : ¬ ((redis.Finalizers.length : Int) > redis.Spec.Num) := by omega
  have hany := stored_any hst
  have hup := Update_live
    { crds := c.crds
      pods := c.pods ++ (missingOf c redis 1 redis.Spec.Num.toNat).map (fun nm => newPod nm redis)
      faults := c.faults
      calls := c.calls ++ [(.getCRD req.Namespace req.Name, none)] ++ ext }
    (scaledUp c redis) (hff _) hany hz
  simp only [Reconcile, GetCRD_stored c req redis (hff _) hst, hz, hnot, Bool.not_true,
    Bool.false_eq_true, ↓reduceIte]
  rw [h1]
  simp only [Client.record, missingOf, scaledUp] at hup ⊢
  rw [hup]
  simp

theorem find?_replaceCRD (crds : List RedisCRD) (obj r : RedisCRD)
    (h : crds.find? (RedisCRD.hasKey obj.Namespace obj.Name) = some r) :
    (replaceCRD crds obj).find? (RedisCRD.hasKey obj.Namespace obj.Name) = some obj := by
  have hobj : RedisCRD.hasKey obj.Namespace obj.Name obj = true := by simp [RedisCRD.hasKey]
  induction crds with
  | nil => simp at h
  | cons a t ih =>
    by_cases ha : RedisCRD.hasKey obj.Namespace obj.Name a = true
    · simp [replaceCRD, List.find?_cons, ha, hobj]
    · have ha' : RedisCRD.hasKey obj.Namespace obj.Name a = false := by simpa using ha
      rw [List.find?_cons, ha'] at h
      have := ih h
      simp only [replaceCRD] at this ⊢
      simp [List.find?_cons, ha', this]

theorem missingOf_all_absent (c : Client) (redis : RedisCRD) (i left : Nat)
    (h : ∀ j, i ≤ j → j < i + left →
      c.pods.any (Pod.hasKey redis.Namespace (podNameOf redis.Name j)) = false) :
    missingOf c redis i left = podNames redis.Name i left := by
  unfold missingOf missingPods
  rw [List.filter_eq_self]
  intro nm hm
  obtain ⟨j, h1, h2, rfl⟩ := mem_podNames.mp hm
  simp [h j h1 h2]

/-- C1. Scale-up: for a parent named `n` that is not marked for deletion, with desired
count `k`, an empty tracker, no pod `n-1 .. n-k` in the store and no failing store call,
`Reconcile` issues exactly `k` creates, for `n-1, ..., n-k` in that order, issues no delete,
and its single, final update stores the parent with tracker `[n-1, ..., n-k]`; it returns
success. -/
theorem scaleUp_creates_in_order (c : Client) (req : Request) (redis : RedisCRD) (k : Nat)
    (hff : c.faultFree) (hst : c.stored req = some redis)
    (hz : IsZero redis.DeletionTimestamp = true)
    (hnum : redis.Spec.Num = (k : Int)) (hF : redis.Finalizers = [])
    (habs : ∀ i, 1 ≤ i → i ≤ k →
      c.pods.any (Pod.hasKey redis.Namespace (podNameOf redis.Name i)) = false) :
    createsOf (newCalls c (Reconcile c req).client)
        = (podNames redis.Name 1 k).map (fun nm => newPod nm redis)
      ∧ (createsOf (newCalls c (Reconcile c req).client)).length = k
      ∧ deletesOf (newCalls c (Reconcile c req).client) = []
      ∧ updatesOf (newCalls c (Reconcile c req).client)
          = [{ redis with Finalizers := podNames redis.Name 1 k }]
      ∧ (newCalls c (Reconcile c req).client).getLast?
          = some (.updateCRD { redis with Finalizers := podNames redis.Name 1 k }, none)
      ∧ (Reconcile c req).client.stored req
          = some { redis with Finalizers := podNames redis.Name 1 k }
      ∧ (Reconcile c req).ret = .val (Result.empty, none) := by
  have hle : (redis.Finalizers.length : Int) ≤ redis.Spec.Num := by simp [hF, hnum]
  obtain ⟨ext, hrec, hcr, hdl, hup⟩ := Reconcile_scaleUp_faultFree c req redis hff hst hz hle
  have hk : redis.Spec.Num.toNat = k := by simp [hnum]
  have hmiss : missingOf c redis 1 k = podNames redis.Name 1 k :=
    missingOf_all_absent c redis 1 k (fun j h1 h2 => habs j h1 (by omega))
  have hsc : scaledUp c redis = { redis with Finalizers := podNames redis.Name 1 k } := by
    simp [scaledUp, hk, hmiss, hF]
  rw [hk, hmiss] at hrec hcr
  rw [hsc] at hrec
  have hnew : newCalls c (Reconcile c req).client
      = (.getCRD req.Namespace req.Name, none) ::
          (ext ++ [(.updateCRD { redis with Finalizers := podNames redis.Name 1 k }, none)]) :=
    newCalls_of_append _ _ _ (by rw [hrec])
  obtain ⟨hns, hnm⟩ := stored_hasKey hst
  refine ⟨?_, ?_, ?_, ?_, ?_, ?_, ?_⟩
  · rw [hnew]; simp [createsOf, createsOf_append, hcr]
  · rw [hnew]; simp [createsOf, createsOf_append, hcr, podNames]
  · rw [hnew]; simp [deletesOf, deletesOf_append, hdl]
  · rw [hnew]; simp [updatesOf, updatesOf_append, hup]
  · rw [hnew, ← List.cons_append, List.getLast?_concat]
  · rw [hrec]
    have := find?_replaceCRD c.crds { redis with Finalizers := podNames redis.Name 1 k } redis
      (by simpa [Client.stored, hns, hnm] using hst)
    simpa [Client.stored, hns, hnm] using this
  · rw [hrec]

/-- Witness of C1: `rediscrd-sample` wanting three pods in a store without them. -/
theorem scaleUp_creates_in_order_witness :
    createsOf (newCalls freshClient (Reconcile freshClient sampleReq).client)
        = (podNames sampleParent.Name 1 3).map (fun nm => newPod nm sampleParent)
      ∧ (createsOf (newCalls freshClient (Reconcile freshClient sampleReq).client)).length = 3
      ∧ deletesOf (newCalls freshClient (Reconcile freshClient sampleReq).client) = []
      ∧ updatesOf (newCalls freshClient (Reconcile freshClient sampleReq).client)
          = [{ sampleParent with Finalizers := podNames sampleParent.Name 1 3 }]
      ∧ (newCalls freshClient (Reconcile freshClient sampleReq).client).getLast?
          = some (.updateCRD { sampleParent with Finalizers := podNames sampleParent.Name 1 3 }, none)
      ∧ (Reconcile freshClient sampleReq).client.stored sampleReq
          = some { sampleParent with Finalizers := podNames sampleParent.Name 1 3 }
      ∧ (Reconcile freshClient sampleReq).ret = .val (Result.empty, none) :=
  scaleUp_creates_in_order freshClient sampleReq sampleParent 3 (fun _ => rfl) (by decide)
    (by decide) (by decide) (by decide)
    (fun i h1 h2 => by interval_cases i <;> decide)

/-! ## Store calls under any fault schedule -/

theorem deleteResultsOf_append (l₁ l₂ : List (Call × Option StoreErr)) :
    deleteResultsOf (l₁ ++ l₂) = deleteResultsOf l₁ ++ deleteResultsOf l₂ := by
  induction l₁ with
  | nil => rfl
  | cons hd tl ih =>
    obtain ⟨call, res⟩ := hd
    cases call <;> simp [deleteResultsOf, ih]

theorem createsOf_deleteEntries (ns : String) (ps : List (String × Option StoreErr)) :
    createsOf (deleteEntries ns ps) = [] := by
  induction ps with
  | nil => rfl
  | cons p t ih => simpa [deleteEntries, createsOf] using ih

theorem updatesOf_deleteEntries (ns : String) (ps : List (String × Option StoreErr)) :
    updatesOf (deleteEntries ns ps) = [] := by
  induction ps with
  | nil => rfl
  | cons p t ih => simpa [deleteEntries, updatesOf] using ih

theorem deletesOf_deleteEntries (ns : String) (ps : List (String × Option StoreErr)) :
    deletesOf (deleteEntries ns ps) = (ps.map Prod.fst).map (fun nm => (ns, nm)) := by
  induction ps with
  | nil => rfl
  | cons p t ih => simpa [deleteEntries, deletesOf] using ih

theorem deleteResultsOf_deleteEntries (ns : String) (ps : List (String × Option StoreErr)) :
    deleteResultsOf (deleteEntries ns ps) = ps.map Prod.snd := by
  induction ps with
  | nil => rfl
  | cons p t ih => simpa [deleteEntries, deleteResultsOf] using ih

theorem Delete_spec (c : Client) (ns name : String) :
    (c.Delete ns name).1.calls = c.calls ++ [(.deletePod ns name, (c.Delete ns name).2)]
      ∧ (c.Delete ns name).1.crds = c.crds
      ∧ (c.Delete ns name).1.faults = c.faults := by
  unfold Client.Delete
  split
  · simp [Client.record]
  · split <;> simp [Client.record]

theorem Update_spec (c : Client) (obj : RedisCRD) :
    (c.Update obj).1.calls = c.calls ++ [(.updateCRD obj, (c.Update obj).2)]
      ∧ (c.Update obj).1.pods = c.pods
      ∧ (c.Update obj).1.faults = c.faults := by
  unfold Client.Update
  split
  · simp [Client.record]
  · split
    · split <;> simp [Client.record]
    · simp [Client.record]

theorem Update_failed_crds (c : Client) (obj : RedisCRD) (e : StoreErr)
    (h : (c.Update obj).2 = some e) : (c.Update obj).1.crds = c.crds := by
  unfold Client.Update at h ⊢
  split
  · simp [Client.record]
  · rename_i hf
    simp only [hf] at h
    split
    · rename_i hex
      simp only [hex, ↓reduceIte] at h
      split at h <;> simp at h
    · simp [Client.record]

theorem Update_ok_crds (c : Client) (obj : RedisCRD)
    (h : (c.Update obj).2 = none) (hz : IsZero obj.DeletionTimestamp = true) :
    (c.Update obj).1.crds = replaceCRD c.crds obj := by
  unfold Client.Update at h ⊢
  split
  · rename_i e hf
    simp [hf] at h
  · rename_i hf
    simp only [hf] at h
    split
    · simp [hz, Client.record, replaceCRD]
    · rename_i hex
      simp [hex] at h

/-! ## The scale-down loop -/

theorem drop_reverse_of_length_succ (F : List String) (i w : Nat) (nm : String)
    (hlen : F.length = i + 1) (hw : w ≤ i) (hget : F.get? i = some nm) :
    (F.drop w).reverse = nm :: ((F.take i).drop w).reverse := by
  have hF : F = F.take i ++ [nm] := by
    have h1 : F.drop i = [nm] := by
      have hlt : i < F.length := by omega
      rw [List.drop_eq_getElem_cons hlt, List.drop_of_length_le (by omega)]
      have := List.get?_eq_get hlt
      rw [this] at hget
      simp only [List.get_eq_getElem, Option.some.injEq] at hget
      rw [hget]
    rw [← h1, List.take_append_drop]
  have hlt : (F.take i).length = i := by simp [List.length_take]; omega
  conv_lhs => rw [hF]
  rw [List.drop_append_of_le_length (by omega)]
  simp

theorem clearRedisUpdateNumLoop_spec (w : Nat) :
    ∀ (i : Nat) (c : Client) (redis : RedisCRD) (err : Option StoreErr),
      redis.Finalizers.length = i →
      ∃ ps : List (String × Option StoreErr),
        ps.map Prod.fst = (redis.Finalizers.drop w).reverse
        ∧ (clearRedisUpdateNumLoop w i c redis err).1.calls
            = c.calls ++ deleteEntries redis.Namespace ps
        ∧ (clearRedisUpdateNumLoop w i c redis err).1.crds = c.crds
        ∧ (clearRedisUpdateNumLoop w i c redis err).1.faults = c.faults
        ∧ (clearRedisUpdateNumLoop w i c redis err).2.1
            = { redis with Finalizers := redis.Finalizers.take w }
        ∧ (clearRedisUpdateNumLoop w i c redis err).2.2
            = .val ((ps.map Prod.snd).getLast?.getD err) := by
  intro i
  induction i with
  | zero =>
    intro c redis err hlen
    have hnil : redis.Finalizers = [] := List.length_eq_zero.mp hlen
    have hneg : ¬ ((0 : Int) > (w : Int)) := by omega
    have hloop : clearRedisUpdateNumLoop w 0 c redis err = (c, redis, .val err) := by
      rw [clearRedisUpdateNumLoop]
      simp only [hneg, ↓reduceIte]
    rw [hloop]
    refine ⟨[], ?_, ?_, rfl, rfl, ?_, ?_⟩
    · simp [hnil]
    · simp [deleteEntries]
    · cases redis
      simp_all
    · simp
  | succ i ih =>
    intro c redis err hlen
    by_cases hgt : ((i + 1 : Nat) : Int) > (w : Int)
    · have hw : w ≤ i := by omega
      have hlt : i < redis.Finalizers.length := by omega
      obtain ⟨nm, hnm⟩ : ∃ nm, redis.Finalizers.get? i = some nm :=
        ⟨_, List.get?_eq_get hlt⟩
      obtain ⟨hc, hcr, hfl⟩ := Delete_spec c redis.Namespace nm
      obtain ⟨ps, h1, h2, h3, h4, h5, h6⟩ := ih (c.Delete redis.Namespace nm).1
        { redis with Finalizers := redis.Finalizers.take i } (c.Delete redis.Namespace nm).2
        (by simp [List.length_take]; omega)
      have hloop : clearRedisUpdateNumLoop w (i + 1) c redis err
          = clearRedisUpdateNumLoop w i (c.Delete redis.Namespace nm).1
              { redis with Finalizers := redis.Finalizers.take i }
              (c.Delete redis.Namespace nm).2 := by
        rw [clearRedisUpdateNumLoop]
        simp only [hgt, ↓reduceIte, hnm]
      rw [hloop]
      refine ⟨(nm, (c.Delete redis.Namespace nm).2) :: ps, ?_, ?_, ?_, ?_, ?_, ?_⟩
      · rw [drop_reverse_of_length_succ _ i w nm hlen hw hnm]
        simpa using h1
      · rw [h2, hc]
        simp [deleteEntries]
      · rw [h3, hcr]
      · rw [h4, hfl]
      · rw [h5]
        simp [List.take_take, Nat.min_eq_left hw]
      · rw [h6]
        cases hps : ps.map Prod.snd with
        | nil => simp [hps]
        | cons a t =>
          simp only [List.map_cons, hps, List.getLast?_cons_cons]
          rw [List.getLast?_eq_getLast _ (List.cons_ne_nil a t)]
          simp
    · have hw : i + 1 ≤ w := by omega
      have hloop : clearRedisUpdateNumLoop w (i + 1) c redis err = (c, redis, .val err) := by
        rw [clearRedisUpdateNumLoop]
        simp only [hgt, ↓reduceIte]
      rw [hloop]
      refine ⟨[], ?_, ?_, rfl, rfl, ?_, ?_⟩
      · simp [List.drop_of_length_le (by omega : redis.Finalizers.length ≤ w)]
      · simp [deleteEntries]
      · simp [List.take_of_length_le (by omega : redis.Finalizers.length ≤ w)]
      · simp

theorem clearRedisUpdateNum_spec (c : Client) (redis : RedisCRD) (w : Nat)
    (hnum : redis.Spec.Num = (w : Int)) (hgt : w < redis.Finalizers.length) :
    ∃ (ps : List (String × Option StoreErr)) (L : Client),
      ps.map Prod.fst = (redis.Finalizers.drop w).reverse
      ∧ L.calls = c.calls ++ deleteEntries redis.Namespace ps
      ∧ L.crds = c.crds ∧ L.faults = c.faults
      ∧ (∀ e, (ps.map Prod.snd).getLast? = some (some e) →
          clearRedisUpdateNum c redis
            = (L, { redis with Finalizers := redis.Finalizers.take w }, .val (some e)))
      ∧ ((ps.map Prod.snd).getLast? = some none →
          clearRedisUpdateNum c redis
            = ((L.Update { redis with Finalizers := redis.Finalizers.take w }).1,
               { redis with Finalizers := redis.Finalizers.take w },
               .val (L.Update { redis with Finalizers := redis.Finalizers.take w }).2)) := by
  obtain ⟨ps, h1, h2, h3, h4, h5, h6⟩ :=
    clearRedisUpdateNumLoop_spec w redis.Finalizers.length c redis none rfl
  have hpos : ¬ (redis.Finalizers.length ≤ 0) := by omega
  refine ⟨ps, (clearRedisUpdateNumLoop w redis.Finalizers.length c redis none).1,
    h1, h2, h3, h4, ?_, ?_⟩
  · intro e he
    rw [he] at h6
    simp only [Option.getD_some] at h6
    simp only [clearRedisUpdateNum, hpos, ↓reduceIte, hnum]
    generalize clearRedisUpdateNumLoop w redis.Finalizers.length c redis none = out at h5 h6 ⊢
    obtain ⟨L, r1, rt⟩ := out
    simp only at h5 h6
    subst h5 h6
    rfl
  · intro he
    rw [he] at h6
    simp only [Option.getD_some] at h6
    simp only [clearRedisUpdateNum, hpos, ↓reduceIte, hnum]
    generalize clearRedisUpdateNumLoop w redis.Finalizers.length c redis none = out at h5 h6 ⊢
    obtain ⟨L, r1, rt⟩ := out
    simp only at h5 h6
    subst h5 h6
    rfl

theorem Reconcile_scaleDown (c : Client) (req : Request) (redis : RedisCRD)
    (hf : c.faults c.calls.length = none) (hst : c.stored req = some redis)
    (hz : IsZero redis.DeletionTimestamp = true)
    (hgt : (redis.Finalizers.length : Int) > redis.Spec.Num) :
    Reconcile c req
      = match clearRedisUpdateNum (c.record (.getCRD req.Namespace req.Name) none) redis with
        | (c2, redis2, .panic) => ⟨c2, some redis2, .panic⟩
        | (c2, redis2, .val _) => ⟨c2, some redis2, .val (Result.empty, none)⟩ := by
  simp only [Reconcile, GetCRD_stored c req redis hf hst, hz, hgt, Bool.not_true,
    Bool.false_eq_true, ↓reduceIte]

theorem stored_replaceCRD (c : Client) (req : Request) (redis obj : RedisCRD) (crds : List RedisCRD)
    (hst : c.stored req = some redis) (hns : obj.Namespace = redis.Namespace)
    (hnm : obj.Name = redis.Name) (hcr : crds = replaceCRD c.crds obj) :
    crds.find? (RedisCRD.hasKey req.Namespace req.Name) = some obj := by
  obtain ⟨h1, h2⟩ := stored_hasKey hst
  have hk1 : obj.Namespace = req.Namespace := hns.trans h1
  have hk2 : obj.Name = req.Name := hnm.trans h2
  have := find?_replaceCRD c.crds obj redis (by rw [hk1, hk2]; exact hst)
  rw [hcr]
  simp only [replaceCRD, hk1, hk2] at this ⊢
  exact this

/-- C2. Scale-down: for a parent that is not marked for deletion whose tracker has more
entries than the desired count `want >= 0`, when every delete succeeds, `Reconcile` issues
deletes for the tracked pods from the last position down to position `want + 1`, in that
order, and no other delete; it issues no create; it issues exactly one update, the last
call, carrying the first `want` entries of the tracker, and that tracker is stored when
the update succeeds. -/
theorem scaleDown_deletes_from_end (c : Client) (req : Request) (redis : RedisCRD) (want : Nat)
    (hf : c.faults c.calls.length = none) (hst : c.stored req = some redis)
    (hz : IsZero redis.DeletionTimestamp = true)
    (hnum : redis.Spec.Num = (want : Int)) (hgt : want < redis.Finalizers.length)
    (hok : ∀ r ∈ deleteResultsOf (newCalls c (Reconcile c req).client), r = none) :
    deletesOf (newCalls c (Reconcile c req).client)
        = ((redis.Finalizers.drop want).reverse).map (fun nm => (redis.Namespace, nm))
      ∧ createsOf (newCalls c (Reconcile c req).client) = []
      ∧ updatesOf (newCalls c (Reconcile c req).client)
          = [{ redis with Finalizers := redis.Finalizers.take want }]
      ∧ (∃ e, (newCalls c (Reconcile c req).client).getLast?
            = some (.updateCRD { redis with Finalizers := redis.Finalizers.take want }, e)
          ∧ (e = none → (Reconcile c req).client.stored req
              = some { redis with Finalizers := redis.Finalizers.take want })) := by
  have hgt' : (redis.Finalizers.length : Int) > redis.Spec.Num := by omega
  obtain ⟨ps, L, h1, h2, h3, h4, h5, h6⟩ :=
    clearRedisUpdateNum_spec (c.record (.getCRD req.Namespace req.Name) none) redis want hnum hgt
  have hrec := Reconcile_scaleDown c req redis hf hst hz hgt'
  have hlen : (ps.map Prod.snd).length = redis.Finalizers.length - want := by
    have := congrArg List.length h1
    simpa using this
  cases hlast : (ps.map Prod.snd).getLast? with
  | none =>
    rw [List.getLast?_eq_none_iff] at hlast
    rw [hlast] at hlen
    simp at hlen
    omega
  | some r =>
    cases r with
    | some e =>
      exfalso
      rw [h5 e hlast] at hrec
      simp only at hrec
      have hnew : newCalls c (Reconcile c req).client
          = (.getCRD req.Namespace req.Name, none) :: deleteEntries redis.Namespace ps :=
        newCalls_of_append _ _ _ (by rw [hrec]; simp [h2, Client.record])
      rw [hnew] at hok
      simp only [deleteResultsOf, deleteResultsOf_deleteEntries] at hok
      have := hok (some e) (List.mem_of_mem_getLast? hlast)
      simp at this
    | none =>
      rw [h6 hlast] at hrec
      simp only at hrec
      obtain ⟨u1, u2, u3⟩ := Update_spec L { redis with Finalizers := redis.Finalizers.take want }
      have hnew : newCalls c (Reconcile c req).client
          = (.getCRD req.Namespace req.Name, none) :: (deleteEntries redis.Namespace ps ++
              [(.updateCRD { redis with Finalizers := redis.Finalizers.take want },
                (L.Update { redis with Finalizers := redis.Finalizers.take want }).2)]) :=
        newCalls_of_append _ _ _ (by rw [hrec]; simp [u1, h2, Client.record])
      refine ⟨?_, ?_, ?_,
        (L.Update { redis with Finalizers := redis.Finalizers.take want }).2, ?_, ?_⟩
      · rw [hnew]
        simp [deletesOf, deletesOf_append, deletesOf_deleteEntries, h1]
      · rw [hnew]
        simp [createsOf, createsOf_append, createsOf_deleteEntries]
      · rw [hnew]
        simp [updatesOf, updatesOf_append, updatesOf_deleteEntries]
      · rw [hnew, ← List.cons_append, List.getLast?_concat]
      · intro he
        have hcr := Update_ok_crds L { redis with Finalizers := redis.Finalizers.take want } he hz
        rw [hrec]
        simp only [Client.stored]
        exact stored_replaceCRD c req redis _ _ hst rfl rfl (by rw [hcr, h3]; rfl)

/-- Witness of C2: five tracked pods, desired count two. -/
theorem scaleDown_deletes_from_end_witness :
    deletesOf (newCalls shrunkClient (Reconcile shrunkClient sampleReq).client)
        = ((shrunkParent.Finalizers.drop 2).reverse).map (fun nm => (shrunkParent.Namespace, nm))
      ∧ createsOf (newCalls shrunkClient (Reconcile shrunkClient sampleReq).client) = []
      ∧ updatesOf (newCalls shrunkClient (Reconcile shrunkClient sampleReq).client)
          = [{ shrunkParent with Finalizers := shrunkParent.Finalizers.take 2 }]
      ∧ (∃ e, (newCalls shrunkClient (Reconcile shrunkClient sampleReq).client).getLast?
            = some (.updateCRD { shrunkParent with Finalizers := shrunkParent.Finalizers.take 2 }, e)
          ∧ (e = none → (Reconcile shrunkClient sampleReq).client.stored sampleReq
              = some { shrunkParent with Finalizers := shrunkParent.Finalizers.take 2 })) :=
  scaleDown_deletes_from_end shrunkClient sampleReq shrunkParent 2 rfl (by decide) (by decide)
    (by decide) (by decide) (by decide)

/-! ## Teardown -/

theorem clearRedisLoop_spec (ns : String) :
    ∀ (F : List String) (c : Client),
      (clearRedisLoop ns F c).1.crds = c.crds
      ∧ (clearRedisLoop ns F c).1.faults = c.faults
      ∧ ((∃ ps : List (String × Option StoreErr),
            ps.map Prod.fst = F
            ∧ (∀ r ∈ ps.map Prod.snd, r = none ∨ r = some .notFound)
            ∧ (clearRedisLoop ns F c).1.calls = c.calls ++ deleteEntries ns ps
            ∧ (clearRedisLoop ns F c).2 = none)
        ∨ (∃ (ps : List (String × Option StoreErr)) (x : String) (post : List String)
              (e : StoreErr),
            F = ps.map Prod.fst ++ x :: post
            ∧ (∀ r ∈ ps.map Prod.snd, r = none ∨ r = some .notFound)
            ∧ e ≠ .notFound
            ∧ (clearRedisLoop ns F c).1.calls
                = c.calls ++ (deleteEntries ns ps ++ [(.deletePod ns x, some e)])
            ∧ (clearRedisLoop ns F c).2 = some e)) := by
  intro F
  induction F with
  | nil =>
    intro c
    exact ⟨rfl, rfl, Or.inl ⟨[], rfl, by simp, by simp [clearRedisLoop, deleteEntries], rfl⟩⟩
  | cons f rest ih =>
    intro c
    obtain ⟨hc, hcr, hfl⟩ := Delete_spec c ns f
    obtain ⟨i1, i2, i3⟩ := ih (c.Delete ns f).1
    cases hres : (c.Delete ns f).2 with
    | none =>
      have hloop : clearRedisLoop ns (f :: rest) c = clearRedisLoop ns rest (c.Delete ns f).1 := by
        rw [clearRedisLoop]
        generalize c.Delete ns f = d at hres ⊢
        obtain ⟨c1, r⟩ := d
        simp only at hres
        subst hres
        rfl
      rw [hloop]
      refine ⟨i1.trans hcr, i2.trans hfl, ?_⟩
      rcases i3 with ⟨ps, p1, p2, p3, p4⟩ | ⟨ps, x, post, e, p1, p2, p3, p4, p5⟩
      · refine Or.inl ⟨(f, none) :: ps, by simp [p1], ?_, ?_, p4⟩
        · intro r hr
          simp only [List.map_cons, List.mem_cons] at hr
          rcases hr with rfl | hr
          · exact Or.inl rfl
          · exact p2 r hr
        · rw [p3, hc, hres]; simp [deleteEntries]
      · refine Or.inr ⟨(f, none) :: ps, x, post, e, by simp [p1], ?_, p3, ?_, p5⟩
        · intro r hr
          simp only [List.map_cons, List.mem_cons] at hr
          rcases hr with rfl | hr
          · exact Or.inl rfl
          · exact p2 r hr
        · rw [p4, hc, hres]; simp [deleteEntries]
    | some err =>
      by_cases hnf : err = .notFound
      · have hloop : clearRedisLoop ns (f :: rest) c
            = clearRedisLoop ns rest (c.Delete ns f).1 := by
          rw [clearRedisLoop]
          generalize c.Delete ns f = d at hres ⊢
          obtain ⟨c1, r⟩ := d
          simp only at hres
          subst hres
          simp [hnf]
        rw [hloop]
        refine ⟨i1.trans hcr, i2.trans hfl, ?_⟩
        rcases i3 with ⟨ps, p1, p2, p3, p4⟩ | ⟨ps, x, post, e, p1, p2, p3, p4, p5⟩
        · refine Or.inl ⟨(f, some err) :: ps, by simp [p1], ?_, ?_, p4⟩
          · intro r hr
            simp only [List.map_cons, List.mem_cons] at hr
            rcases hr with rfl | hr
            · exact Or.inr (by rw [hnf])
            · exact p2 r hr
          · rw [p3, hc, hres]; simp [deleteEntries]
        · refine Or.inr ⟨(f, some err) :: ps, x, post, e, by simp [p1], ?_, p3, ?_, p5⟩
          · intro r hr
            simp only [List.map_cons, List.mem_cons] at hr
            rcases hr with rfl | hr
            · exact Or.inr (by rw [hnf])
            · exact p2 r hr
          · rw [p4, hc, hres]; simp [deleteEntries]
      · have hloop : clearRedisLoop ns (f :: rest) c = ((c.Delete ns f).1, some err) := by
          rw [clearRedisLoop]
          generalize c.Delete ns f = d at hres ⊢
          obtain ⟨c1, r⟩ := d
          simp only at hres
          subst hres
          simp [hnf]
        rw [hloop]
        refine ⟨hcr, hfl, Or.inr ⟨[], f, rest, err, by simp, by simp, hnf, ?_, rfl⟩⟩
        rw [hc, hres]; simp [deleteEntries]

theorem Reconcile_teardown (c : Client) (req : Request) (redis : RedisCRD)
    (hf : c.faults c.calls.length = none) (hst : c.stored req = some redis)
    (hz : IsZero redis.DeletionTimestamp = false) :
    Reconcile c req
      = ⟨(clearRedis (c.record (.getCRD req.Namespace req.Name) none) redis).1,
         some (clearRedis (c.record (.getCRD req.Namespace req.Name) none) redis).2.1,
         .val (Result.empty, (clearRedis (c.record (.getCRD req.Namespace req.Name) none) redis).2.2)⟩ := by
  simp only [Reconcile, GetCRD_stored c req redis hf hst, hz, Bool.not_false, ↓reduceIte]

theorem clearRedis_of_loop_ok (c : Client) (redis : RedisCRD)
    (h : (clearRedisLoop redis.Namespace redis.Finalizers c).2 = none) :
    clearRedis c redis
      = (((clearRedisLoop redis.Namespace redis.Finalizers c).1.Update
            { redis with Finalizers := [] }).1,
         { redis with Finalizers := [] },
         ((clearRedisLoop redis.Namespace redis.Finalizers c).1.Update
            { redis with Finalizers := [] }).2) := by
  unfold clearRedis
  generalize clearRedisLoop redis.Namespace redis.Finalizers c = out at h ⊢
  obtain ⟨L, r⟩ := out
  simp only at h
  subst h
  rfl

theorem clearRedis_of_loop_err (c : Client) (redis : RedisCRD) (e : StoreErr)
    (h : (clearRedisLoop redis.Namespace redis.Finalizers c).2 = some e) :
    clearRedis c redis
      = ((clearRedisLoop redis.Namespace redis.Finalizers c).1, redis, some e) := by
  unfold clearRedis
  generalize clearRedisLoop redis.Namespace redis.Finalizers c = out at h ⊢
  obtain ⟨L, r⟩ := out
  simp only at h
  subst h
  rfl

/-- C3, as the code has it. Teardown: for a parent marked for deletion with `N` tracked
pods, when each delete returns ok or NotFound, `Reconcile` issues a delete for each of the
`N` tracked identifiers, in tracker order, issues no create whatever the desired count is,
issues one update, the last call, carrying the parent with an empty tracker, and returns
what that update returned: success when the update succeeds, its error otherwise. -/
theorem teardown_deletes_all (c : Client) (req : Request) (redis : RedisCRD)
    (hf : c.faults c.calls.length = none) (hst : c.stored req = some redis)
    (hz : IsZero redis.DeletionTimestamp = false)
    (hok : ∀ r ∈ deleteResultsOf (newCalls c (Reconcile c req).client),
      r = none ∨ r = some .notFound) :
    deletesOf (newCalls c (Reconcile c req).client)
        = redis.Finalizers.map (fun nm => (redis.Namespace, nm))
      ∧ createsOf (newCalls c (Reconcile c req).client) = []
      ∧ updatesOf (newCalls c (Reconcile c req).client) = [{ redis with Finalizers := [] }]
      ∧ (Reconcile c req).redis = some { redis with Finalizers := [] }
      ∧ (∃ e, (newCalls c (Reconcile c req).client).getLast?
            = some (.updateCRD { redis with Finalizers := [] }, e)
          ∧ (Reconcile c req).ret = .val (Result.empty, e)) := by
  have hrec := Reconcile_teardown c req redis hf hst hz
  obtain ⟨_, _, hloop⟩ := clearRedisLoop_spec redis.Namespace redis.Finalizers
    (c.record (.getCRD req.Namespace req.Name) none)
  rcases hloop with ⟨ps, p1, p2, p3, p4⟩ | ⟨ps, x, post, e, p1, p2, p3, p4, p5⟩
  · rw [clearRedis_of_loop_ok _ _ p4] at hrec
    simp only at hrec
    obtain ⟨u1, _, _⟩ := Update_spec
      (clearRedisLoop redis.Namespace redis.Finalizers
        (c.record (.getCRD req.Namespace req.Name) none)).1 { redis with Finalizers := [] }
    have hnew : newCalls c (Reconcile c req).client
        = (.getCRD req.Namespace req.Name, none) :: (deleteEntries redis.Namespace ps ++
            [(.updateCRD { redis with Finalizers := [] },
              ((clearRedisLoop redis.Namespace redis.Finalizers
                (c.record (.getCRD req.Namespace req.Name) none)).1.Update
                  { redis with Finalizers := [] }).2)]) :=
      newCalls_of_append _ _ _ (by rw [hrec]; simp only []; rw [u1, p3]; simp [Client.record])
    refine ⟨?_, ?_, ?_, ?_,
      ((clearRedisLoop redis.Namespace redis.Finalizers
        (c.record (.getCRD req.Namespace req.Name) none)).1.Update
          { redis with Finalizers := [] }).2, ?_, ?_⟩
    · rw [hnew]
      simp [deletesOf, deletesOf_append, deletesOf_deleteEntries, p1]
    · rw [hnew]
      simp [createsOf, createsOf_append, createsOf_deleteEntries]
    · rw [hnew]
      simp [updatesOf, updatesOf_append, updatesOf_deleteEntries]
    · rw [hrec]
    · rw [hnew, ← List.cons_append, List.getLast?_concat]
    · rw [hrec]
  · exfalso
    rw [clearRedis_of_loop_err _ _ e p5] at hrec
    simp only at hrec
    have hnew : newCalls c (Reconcile c req).client
        = (.getCRD req.Namespace req.Name, none) :: (deleteEntries redis.Namespace ps ++
            [(.deletePod redis.Namespace x, some e)]) :=
      newCalls_of_append _ _ _ (by rw [hrec]; simp only []; rw [p4]; simp [Client.record])
    rw [hnew] at hok
    have := hok (some e) (by
      simp [deleteResultsOf, deleteResultsOf_append, deleteResultsOf_deleteEntries])
    simp [p3] at this

/-- Witness of C3's amended statement: one tracked pod present, the other already gone. -/
theorem teardown_deletes_all_witness :
    deletesOf (newCalls (deletingClient none) (Reconcile (deletingClient none) sampleReq).client)
        = deletingParent.Finalizers.map (fun nm => (deletingParent.Namespace, nm))
      ∧ createsOf (newCalls (deletingClient none)
          (Reconcile (deletingClient none) sampleReq).client) = []
      ∧ updatesOf (newCalls (deletingClient none)
          (Reconcile (deletingClient none) sampleReq).client)
          = [{ deletingParent with Finalizers := [] }]
      ∧ (Reconcile (deletingClient none) sampleReq).redis
          = some { deletingParent with Finalizers := [] }
      ∧ (∃ e, (newCalls (deletingClient none)
            (Reconcile (deletingClient none) sampleReq).client).getLast?
            = some (.updateCRD { deletingParent with Finalizers := [] }, e)
          ∧ (Reconcile (deletingClient none) sampleReq).ret = .val (Result.empty, e)) :=
  teardown_deletes_all (deletingClient none) sampleReq deletingParent rfl (by decide)
    (by decide) (by decide)

/-- C3 as stated fails: the parent is marked for deletion, the two deletes return ok and
NotFound, the update returns Conflict, and `Reconcile` returns that error, not success. -/
theorem teardown_update_conflict_not_success :
    (deletingClient (some (3, .conflict))).stored sampleReq = some deletingParent
      ∧ IsZero deletingParent.DeletionTimestamp = false
      ∧ deleteResultsOf (newCalls (deletingClient (some (3, .conflict)))
          (Reconcile (deletingClient (some (3, .conflict))) sampleReq).client)
          = [none, some .notFound]
      ∧ updatesOf (newCalls (deletingClient (some (3, .conflict)))
          (Reconcile (deletingClient (some (3, .conflict))) sampleReq).client)
          = [{ deletingParent with Finalizers := [] }]
      ∧ (Reconcile (deletingClient (some (3, .conflict))) sampleReq).ret
          = .val (Result.empty, some .conflict)
      ∧ (Reconcile (deletingClient (some (3, .conflict))) sampleReq).ret
          ≠ .val (Result.empty, none) := by
  decide

/-- C4. Teardown stops at a fatal error: for a parent marked for deletion, if a pod delete
returns an error `e` other than NotFound, that delete is the last call `Reconcile` issues:
the deletes are those of the tracked identifiers up to and including the failing one, none
for the later ones; there is no update and no create; `Reconcile` returns `e`; the tracker
in memory and the records in the store are as they were fetched. -/
theorem teardown_stops_at_fatal (c : Client) (req : Request) (redis : RedisCRD) (e : StoreErr)
    (hf : c.faults c.calls.length = none) (hst : c.stored req = some redis)
    (hz : IsZero redis.DeletionTimestamp = false) (he : e ≠ .notFound)
    (hbad : some e ∈ deleteResultsOf (newCalls c (Reconcile c req).client)) :
    ∃ (pre : List String) (x : String) (post : List String),
      redis.Finalizers = pre ++ x :: post
      ∧ deletesOf (newCalls c (Reconcile c req).client)
          = (pre ++ [x]).map (fun nm => (redis.Namespace, nm))
      ∧ (newCalls c (Reconcile c req).client).getLast?
          = some (.deletePod redis.Namespace x, some e)
      ∧ updatesOf (newCalls c (Reconcile c req).client) = []
      ∧ createsOf (newCalls c (Reconcile c req).client) = []
      ∧ (Reconcile c req).ret = .val (Result.empty, some e)
      ∧ (Reconcile c req).redis = some redis
      ∧ (Reconcile c req).client.crds = c.crds := by
  have hrec := Reconcile_teardown c req redis hf hst hz
  obtain ⟨hcrds, _, hloop⟩ := clearRedisLoop_spec redis.Namespace redis.Finalizers
    (c.record (.getCRD req.Namespace req.Name) none)
  rcases hloop with ⟨ps, p1, p2, p3, p4⟩ | ⟨ps, x, post, e0, p1, p2, p3, p4, p5⟩
  · exfalso
    rw [clearRedis_of_loop_ok _ _ p4] at hrec
    simp only at hrec
    obtain ⟨u1, _, _⟩ := Update_spec
      (clearRedisLoop redis.Namespace redis.Finalizers
        (c.record (.getCRD req.Namespace req.Name) none)).1 { redis with Finalizers := [] }
    have hnew : newCalls c (Reconcile c req).client
        = (.getCRD req.Namespace req.Name, none) :: (deleteEntries redis.Namespace ps ++
            [(.updateCRD { redis with Finalizers := [] },
              ((clearRedisLoop redis.Namespace redis.Finalizers
                (c.record (.getCRD req.Namespace req.Name) none)).1.Update
                  { redis with Finalizers := [] }).2)]) :=
      newCalls_of_append _ _ _ (by rw [hrec]; simp only []; rw [u1, p3]; simp [Client.record])
    rw [hnew] at hbad
    simp only [deleteResultsOf, deleteResultsOf_append, deleteResultsOf_deleteEntries,
      List.append_nil] at hbad
    rcases p2 _ hbad with h | h
    · simp at h
    · exact he (by simpa using h)
  · rw [clearRedis_of_loop_err _ _ e0 p5] at hrec
    simp only at hrec
    have hnew : newCalls c (Reconcile c req).client
        = (.getCRD req.Namespace req.Name, none) :: (deleteEntries redis.Namespace ps ++
            [(.deletePod redis.Namespace x, some e0)]) :=
      newCalls_of_append _ _ _ (by rw [hrec]; simp only []; rw [p4]; simp [Client.record])
    have hee : e = e0 := by
      rw [hnew] at hbad
      simp only [deleteResultsOf, deleteResultsOf_append, deleteResultsOf_deleteEntries,
        List.mem_append, List.mem_singleton] at hbad
      rcases hbad with h | h
      · rcases p2 _ h with h' | h'
        · simp at h'
        · exact absurd (by simpa using h') he
      · simpa using h
    subst hee
    refine ⟨ps.map Prod.fst, x, post, p1, ?_, ?_, ?_, ?_, ?_, ?_, ?_⟩
    · rw [hnew]
      simp [deletesOf, deletesOf_append, deletesOf_deleteEntries]
    · rw [hnew, ← List.cons_append, List.getLast?_concat]
    · rw [hnew]
      simp [updatesOf, updatesOf_append, updatesOf_deleteEntries]
    · rw [hnew]
      simp [createsOf, createsOf_append, createsOf_deleteEntries]
    · rw [hrec]
    · rw [hrec]
    · rw [hrec]
      exact hcrds

/-- Witness of C4: the first of two deletes fails with a transient error. -/
theorem teardown_stops_at_fatal_witness :
    ∃ (pre : List String) (x : String) (post : List String),
      deletingParent.Finalizers = pre ++ x :: post
      ∧ deletesOf (newCalls (deletingClient (some (1, .unavailable)))
          (Reconcile (deletingClient (some (1, .unavailable))) sampleReq).client)
          = (pre ++ [x]).map (fun nm => (deletingParent.Namespace, nm))
      ∧ (newCalls (deletingClient (some (1, .unavailable)))
          (Reconcile (deletingClient (some (1, .unavailable))) sampleReq).client).getLast?
          = some (.deletePod deletingParent.Namespace x, some .unavailable)
      ∧ updatesOf (newCalls (deletingClient (some (1, .unavailable)))
          (Reconcile (deletingClient (some (1, .unavailable))) sampleReq).client) = []
      ∧ createsOf (newCalls (deletingClient (some (1, .unavailable)))
          (Reconcile (deletingClient (some (1, .unavailable))) sampleReq).client) = []
      ∧ (Reconcile (deletingClient (some (1, .unavailable))) sampleReq).ret
          = .val (Result.empty, some .unavailable)
      ∧ (Reconcile (deletingClient (some (1, .unavailable))) sampleReq).redis
          = some deletingParent
      ∧ (Reconcile (deletingClient (some (1, .unavailable))) sampleReq).client.crds
          = (deletingClient (some (1, .unavailable))).crds :=
  teardown_stops_at_fatal (deletingClient (some (1, .unavailable))) sampleReq deletingParent
    .unavailable (by decide) (by decide) (by decide) (by decide) (by decide)

/-- C5. Missing parent: for a key whose parent is not in the store, under any fault
schedule, `Reconcile` returns success and its only store call is the fetch: no create, no
update, no delete, and the records and pods of the store are untouched. -/
theorem missing_parent_noop (c : Client) (req : Request) (h : c.stored req = none) :
    (Reconcile c req).ret = .val (Result.empty, none)
      ∧ (newCalls c (Reconcile c req).client).map Prod.fst = [.getCRD req.Namespace req.Name]
      ∧ createsOf (newCalls c (Reconcile c req).client) = []
      ∧ updatesOf (newCalls c (Reconcile c req).client) = []
      ∧ deletesOf (newCalls c (Reconcile c req).client) = []
      ∧ (Reconcile c req).client.crds = c.crds
      ∧ (Reconcile c req).client.pods = c.pods := by
  unfold Client.stored at h
  cases hf : c.faults c.calls.length with
  | some e =>
    have hrec : Reconcile c req
        = ⟨c.record (.getCRD req.Namespace req.Name) (some e), none, .val (Result.empty, none)⟩ := by
      simp only [Reconcile, Client.GetCRD, hf]
    have hnew : newCalls c (Reconcile c req).client
        = [(.getCRD req.Namespace req.Name, some e)] :=
      newCalls_of_append _ _ _ (by rw [hrec]; rfl)
    rw [hnew, hrec]
    simp [createsOf, updatesOf, deletesOf, Client.record]
  | none =>
    have hrec : Reconcile c req
        = ⟨c.record (.getCRD req.Namespace req.Name) (some .notFound), none,
            .val (Result.empty, none)⟩ := by
      simp only [Reconcile, Client.GetCRD, hf, h]
    have hnew : newCalls c (Reconcile c req).client
        = [(.getCRD req.Namespace req.Name, some .notFound)] :=
      newCalls_of_append _ _ _ (by rw [hrec]; rfl)
    rw [hnew, hrec]
    simp [createsOf, updatesOf, deletesOf, Client.record]

/-- Witness of C5: a store with no parent record. -/
theorem missing_parent_noop_witness :
    (Reconcile orphanClient sampleReq).ret = .val (Result.empty, none)
      ∧ (newCalls orphanClient (Reconcile orphanClient sampleReq).client).map Prod.fst
          = [.getCRD sampleReq.Namespace sampleReq.Name]
      ∧ createsOf (newCalls orphanClient (Reconcile orphanClient sampleReq).client) = []
      ∧ updatesOf (newCalls orphanClient (Reconcile orphanClient sampleReq).client) = []
      ∧ deletesOf (newCalls orphanClient (Reconcile orphanClient sampleReq).client) = []
      ∧ (Reconcile orphanClient sampleReq).client.crds = orphanClient.crds
      ∧ (Reconcile orphanClient sampleReq).client.pods = orphanClient.pods :=
  missing_parent_noop orphanClient sampleReq (by decide)

/-! ## Reconciling twice -/

theorem missingPods_after_create (pods : List Pod) (redis : RedisCRD) (names : List String) :
    missingPods (pods ++ (missingPods pods redis.Namespace names).map (fun nm => newPod nm redis))
      redis.Namespace names = [] := by
  unfold missingPods
  rw [List.filter_eq_nil_iff]
  intro nm hnm
  by_cases hex : pods.any (Pod.hasKey redis.Namespace nm) = true
  · simp [List.any_append, hex]
  · have hmiss : nm ∈ names.filter (fun nm => !pods.any (Pod.hasKey redis.Namespace nm)) := by
      rw [List.mem_filter]
      exact ⟨hnm, by simpa using hex⟩
    have hin : newPod nm redis ∈
        (names.filter (fun nm => !pods.any (Pod.hasKey redis.Namespace nm))).map
          (fun nm => newPod nm redis) := List.mem_map_of_mem _ hmiss
    have hkey : Pod.hasKey redis.Namespace nm (newPod nm redis) = true := by
      rw [hasKey_newPod _ _ _ _ rfl]
      simp
    have hany : ((names.filter (fun nm => !pods.any (Pod.hasKey redis.Namespace nm))).map
        (fun nm => newPod nm redis)).any (Pod.hasKey redis.Namespace nm) = true :=
      List.any_eq_true.mpr ⟨_, hin, hkey⟩
    simp only [List.any_append, hany, Bool.or_true, Bool.not_true, Bool.false_eq_true,
      not_false_eq_true]

theorem replaceCRD_idem (crds : List RedisCRD) (obj : RedisCRD) :
    replaceCRD (replaceCRD crds obj) obj = replaceCRD crds obj := by
  have hobj : RedisCRD.hasKey obj.Namespace obj.Name obj = true := by simp [RedisCRD.hasKey]
  unfold replaceCRD
  rw [List.map_map]
  apply List.map_congr_left
  intro r _
  by_cases hr : RedisCRD.hasKey obj.Namespace obj.Name r = true <;> simp [hr, hobj]

/-- C6, as the code has it. Idempotent convergence on the scale-up path: for a fault-free
store and a parent that is not marked for deletion with at most `desiredCount` tracked
entries, `Reconcile` returns success; if the tracker it leaves still has at most
`desiredCount` entries, a second `Reconcile` on the same key, with nothing changed in
between, issues no create and no delete, returns success, and leaves the parent records and
the pods of the store exactly as the first run left them. -/
theorem reconcile_twice_scaleUp (c : Client) (req : Request) (redis : RedisCRD)
    (hff : c.faultFree) (hst : c.stored req = some redis)
    (hz : IsZero redis.DeletionTimestamp = true)
    (hle : (redis.Finalizers.length : Int) ≤ redis.Spec.Num)
    (hfit : ∀ r1, (Reconcile c req).redis = some r1 →
      (r1.Finalizers.length : Int) ≤ redis.Spec.Num) :
    (Reconcile c req).ret = .val (Result.empty, none)
      ∧ createsOf (newCalls (Reconcile c req).client
          (Reconcile (Reconcile c req).client req).client) = []
      ∧ deletesOf (newCalls (Reconcile c req).client
          (Reconcile (Reconcile c req).client req).client) = []
      ∧ (Reconcile (Reconcile c req).client req).client.crds = (Reconcile c req).client.crds
      ∧ (Reconcile (Reconcile c req).client req).client.pods = (Reconcile c req).client.pods
      ∧ (Reconcile (Reconcile c req).client req).ret = .val (Result.empty, none) := by
  obtain ⟨ext, hrec, _, _, _⟩ := Reconcile_scaleUp_faultFree c req redis hff hst hz hle
  have hfit' := hfit (scaledUp c redis) (by rw [hrec])
  rw [hrec]
  simp only []
  generalize hc1 : ({ crds := replaceCRD c.crds (scaledUp c redis)
                      pods := c.pods ++ (missingOf c redis 1 redis.Spec.Num.toNat).map
                        (fun nm => newPod nm redis)
                      faults := c.faults
                      calls := c.calls ++ (Call.getCRD req.Namespace req.Name, none) ::
                        (ext ++ [(Call.updateCRD (scaledUp c redis), none)]) } : Client) = c1
  have hff1 : c1.faultFree := by subst hc1; exact hff
  have hcr1 : c1.crds = replaceCRD c.crds (scaledUp c redis) := by subst hc1; rfl
  have hpods1 : c1.pods = c.pods ++ (missingOf c redis 1 redis.Spec.Num.toNat).map
      (fun nm => newPod nm redis) := by subst hc1; rfl
  have hst1 : c1.stored req = some (scaledUp c redis) := by
    unfold Client.stored
    exact stored_replaceCRD c req redis _ _ hst rfl rfl hcr1
  obtain ⟨ext2, hrec2, hcre2, hdel2, _⟩ := Reconcile_scaleUp_faultFree c1 req (scaledUp c redis)
    hff1 hst1 hz hfit'
  have hmiss : missingOf c1 (scaledUp c redis) 1 redis.Spec.Num.toNat = [] := by
    unfold missingOf
    rw [hpods1]
    exact missingPods_after_create c.pods redis _
  have hmiss' : missingOf c1 (scaledUp c redis) 1 (scaledUp c redis).Spec.Num.toNat = [] := hmiss
  have hsame : scaledUp c1 (scaledUp c redis) = scaledUp c redis := by
    rw [scaledUp, hmiss']
    simp
  rw [hmiss'] at hrec2 hcre2
  rw [hsame] at hrec2
  have hnew : newCalls c1 (Reconcile c1 req).client
      = (.getCRD req.Namespace req.Name, none) ::
          (ext2 ++ [(.updateCRD (scaledUp c redis), none)]) :=
    newCalls_of_append _ _ _ (by rw [hrec2])
  refine ⟨trivial, ?_, ?_, ?_, ?_, ?_⟩
  · rw [hnew]; simp [createsOf, createsOf_append, hcre2]
  · rw [hnew]; simp [deletesOf, deletesOf_append, hdel2]
  · rw [hrec2]
    simp only [hcr1, replaceCRD_idem]
  · rw [hrec2]
    simp [hpods1]
  · rw [hrec2]

/-- Witness of C6's amended statement: the scale-up of `rediscrd-sample`, run twice. -/
theorem reconcile_twice_scaleUp_witness :
    (Reconcile freshClient sampleReq).ret = .val (Result.empty, none)
      ∧ createsOf (newCalls (Reconcile freshClient sampleReq).client
          (Reconcile (Reconcile freshClient sampleReq).client sampleReq).client) = []
      ∧ deletesOf (newCalls (Reconcile freshClient sampleReq).client
          (Reconcile (Reconcile freshClient sampleReq).client sampleReq).client) = []
      ∧ (Reconcile (Reconcile freshClient sampleReq).client sampleReq).client.crds
          = (Reconcile freshClient sampleReq).client.crds
      ∧ (Reconcile (Reconcile freshClient sampleReq).client sampleReq).client.pods
          = (Reconcile freshClient sampleReq).client.pods
      ∧ (Reconcile (Reconcile freshClient sampleReq).client sampleReq).ret
          = .val (Result.empty, none) :=
  reconcile_twice_scaleUp freshClient sampleReq sampleParent (fun _ => rfl) (by decide)
    (by decide) (by decide) (by decide)

/-- C6 as stated fails: no store call fails, the parent is not marked for deletion and
the first `Reconcile` (a scale-down from three tracked pods to two) returns success, yet
the second `Reconcile` creates pod `rediscrd-sample-1` and so changes the pods of the
store. -/
theorem reconcile_twice_creates_after_scaleDown :
    loweredClient.stored sampleReq = some loweredParent
      ∧ IsZero loweredParent.DeletionTimestamp = true
      ∧ (Reconcile loweredClient sampleReq).ret = .val (Result.empty, none)
      ∧ (createsOf (newCalls (Reconcile loweredClient sampleReq).client
          (Reconcile (Reconcile loweredClient sampleReq).client sampleReq).client)).map
            (fun p => p.Name) = ["rediscrd-sample-1"]
      ∧ (Reconcile (Reconcile loweredClient sampleReq).client sampleReq).client.pods
          ≠ (Reconcile loweredClient sampleReq).client.pods := by
  decide

/-! ## Self-healing -/

/-- C7. Self-healing, for a fault-free store and a parent named `n` that is not marked for
deletion.  (1) With desired count 3, tracker `[n-1, n-2, n-3]`, pods `n-1` and `n-3` stored
and `n-2` absent, `Reconcile` issues exactly one create, the pod `n-2` owned by the parent,
and its update carries and stores the parent with the tracker unchanged.  (2) On the
scale-up path in general, for every index `i` in `1..desiredCount` whose pod is absent, a
create for `n-i` is issued, whether or not `n-i` is in the tracker. -/
theorem self_healing_recreates (c : Client) (req : Request) (redis : RedisCRD)
    (hff : c.faultFree) (hst : c.stored req = some redis)
    (hz : IsZero redis.DeletionTimestamp = true) :
    (redis.Spec.Num = 3 → redis.Finalizers = podNames redis.Name 1 3 →
      c.pods.any (Pod.hasKey redis.Namespace (podNameOf redis.Name 1)) = true →
      c.pods.any (Pod.hasKey redis.Namespace (podNameOf redis.Name 2)) = false →
      c.pods.any (Pod.hasKey redis.Namespace (podNameOf redis.Name 3)) = true →
        createsOf (newCalls c (Reconcile c req).client) = [newPod (podNameOf redis.Name 2) redis]
        ∧ (newPod (podNameOf redis.Name 2) redis).OwnerReferences
            = [{ Kind := "RedisCRD", Name := redis.Name, Controller := true }]
        ∧ updatesOf (newCalls c (Reconcile c req).client) = [redis]
        ∧ (Reconcile c req).client.stored req = some redis)
    ∧ ((redis.Finalizers.length : Int) ≤ redis.Spec.Num →
      ∀ i : Nat, 1 ≤ i → (i : Int) ≤ redis.Spec.Num →
        c.pods.any (Pod.hasKey redis.Namespace (podNameOf redis.Name i)) = false →
          newPod (podNameOf redis.Name i) redis ∈ createsOf (newCalls c (Reconcile c req).client)) := by
  constructor
  · intro hnum hF h1 h2 h3
    have hle : (redis.Finalizers.length : Int) ≤ redis.Spec.Num := by
      simp [hF, hnum, podNames]
    obtain ⟨ext, hrec, hcr, hdl, hup⟩ := Reconcile_scaleUp_faultFree c req redis hff hst hz hle
    have hk : redis.Spec.Num.toNat = 3 := by simp [hnum]
    have hnames : podNames redis.Name 1 3
        = [podNameOf redis.Name 1, podNameOf redis.Name 2, podNameOf redis.Name 3] := by
      simp [podNames, List.range']
    have hmiss : missingOf c redis 1 3 = [podNameOf redis.Name 2] := by
      simp [missingOf, missingPods, hnames, List.filter_cons, h1, h2, h3]
    have hsc : scaledUp c redis = redis := by
      have hin : podNameOf redis.Name 2 ∈ redis.Finalizers := by simp [hF, hnames]
      cases redis
      simp_all [scaledUp]
    rw [hk, hmiss] at hrec hcr
    rw [hsc] at hrec
    have hnew : newCalls c (Reconcile c req).client
        = (.getCRD req.Namespace req.Name, none) :: (ext ++ [(.updateCRD redis, none)]) :=
      newCalls_of_append _ _ _ (by rw [hrec])
    refine ⟨?_, rfl, ?_, ?_⟩
    · rw [hnew]; simp [createsOf, createsOf_append, hcr]
    · rw [hnew]; simp [updatesOf, updatesOf_append, hup]
    · rw [hrec]
      simp only [Client.stored]
      exact stored_replaceCRD c req redis redis _ hst rfl rfl rfl
  · intro hle i hi1 hi2 habs
    obtain ⟨ext, hrec, hcr, _, _⟩ := Reconcile_scaleUp_faultFree c req redis hff hst hz hle
    have hnew : newCalls c (Reconcile c req).client
        = (.getCRD req.Namespace req.Name, none) ::
            (ext ++ [(.updateCRD (scaledUp c redis), none)]) :=
      newCalls_of_append _ _ _ (by rw [hrec])
    have hmem : podNameOf redis.Name i ∈ missingOf c redis 1 redis.Spec.Num.toNat := by
      unfold missingOf missingPods
      rw [List.mem_filter]
      refine ⟨mem_podNames.mpr ⟨i, hi1, by omega, rfl⟩, by simp [habs]⟩
    rw [hnew]
    simp only [createsOf, createsOf_append, hcr, List.append_nil]
    exact List.mem_map_of_mem _ hmem

/-- Witness of C7: pod 2 of three tracked pods is gone. -/
theorem self_healing_recreates_witness :
    (createsOf (newCalls healClient (Reconcile healClient sampleReq).client)
        = [newPod (podNameOf trackedParent.Name 2) trackedParent]
      ∧ (newPod (podNameOf trackedParent.Name 2) trackedParent).OwnerReferences
          = [{ Kind := "RedisCRD", Name := trackedParent.Name, Controller := true }]
      ∧ updatesOf (newCalls healClient (Reconcile healClient sampleReq).client) = [trackedParent]
      ∧ (Reconcile healClient sampleReq).client.stored sampleReq = some trackedParent)
    ∧ newPod (podNameOf trackedParent.Name 2) trackedParent
        ∈ createsOf (newCalls healClient (Reconcile healClient sampleReq).client) :=
  ⟨(self_healing_recreates healClient sampleReq trackedParent (fun _ => rfl) (by decide)
      (by decide)).1 (by decide) (by decide) (by decide) (by decide) (by decide),
   (self_healing_recreates healClient sampleReq trackedParent (fun _ => rfl) (by decide)
      (by decide)).2 (by decide) 2 (by decide) (by decide) (by decide)⟩

/-! ## Where the code departs from the specification -/

/-- C8, the code at the failing input: for the deleted pod `cache-2`, whose owner reference
has kind `RedisCRD` and name `cache`, `podDeleteHandler` adds nothing to the queue, where
the specification asks for the request (`default`, `cache`); the same event for a pod owned by
`rediscrd-sample` is enqueued. -/
theorem podDeleteHandler_ignores_other_names :
    cacheEvent.Object.OwnerReferences = [{ Kind := "RedisCRD", Name := "cache", Controller := true }]
      ∧ podDeleteHandler cacheEvent [] = []
      ∧ podDeleteHandler sampleEvent [] = [⟨"default", "rediscrd-sample"⟩] := by
  decide

/-- C9, the code at the failing inputs: (1) on the scale-down path the last delete fails
with a transient error, `clearRedisUpdateNum` returns that error, and `Reconcile` returns
success; (2) the fetch of a stored parent fails with a transient error and `Reconcile`
returns success. -/
theorem reconcile_swallows_errors :
    (clearRedisUpdateNum
        ({ shrunkClient with faults := faultAt 3 .unavailable }.record
          (.getCRD "default" "rediscrd-sample") none) shrunkParent).2.2
        = .val (some .unavailable)
      ∧ (Reconcile { shrunkClient with faults := faultAt 3 .unavailable } sampleReq).ret
        = .val (Result.empty, none)
      ∧ (newCalls { shrunkClient with faults := faultAt 0 .unavailable }
          (Reconcile { shrunkClient with faults := faultAt 0 .unavailable } sampleReq).client)
        = [(.getCRD "default" "rediscrd-sample", some .unavailable)]
      ∧ (Reconcile { shrunkClient with faults := faultAt 0 .unavailable } sampleReq).ret
        = .val (Result.empty, none) := by
  decide

/-- C10, the code at the failing input: scaling down from five tracked pods to two, the
first delete issued (position 5) fails with a transient error and the two later ones succeed;
`clearRedisUpdateNum` goes on to the update and returns nil. -/
theorem clearRedisUpdateNum_forgets_earlier_error :
    deleteResultsOf (clearRedisUpdateNum { shrunkClient with faults := faultAt 0 .unavailable }
        shrunkParent).1.calls = [some .unavailable, none, none]
      ∧ updatesOf (clearRedisUpdateNum { shrunkClient with faults := faultAt 0 .unavailable }
        shrunkParent).1.calls = [{ shrunkParent with Finalizers := shrunkParent.Finalizers.take 2 }]
      ∧ (clearRedisUpdateNum { shrunkClient with faults := faultAt 0 .unavailable }
        shrunkParent).2.2 = .val none := by
  decide

/-! ## The create loop under any fault schedule -/

theorem getsOf_append (l₁ l₂ : List (Call × Option StoreErr)) :
    getsOf (l₁ ++ l₂) = getsOf l₁ ++ getsOf l₂ := by
  induction l₁ with
  | nil => rfl
  | cons hd tl ih =>
    obtain ⟨call, res⟩ := hd
    cases call <;> simp [getsOf, ih]

theorem createResultsOf_append (l₁ l₂ : List (Call × Option StoreErr)) :
    createResultsOf (l₁ ++ l₂) = createResultsOf l₁ ++ createResultsOf l₂ := by
  induction l₁ with
  | nil => rfl
  | cons hd tl ih =>
    obtain ⟨call, res⟩ := hd
    cases call <;> simp [createResultsOf, ih]

theorem createResultsOf_deleteEntries (ns : String) (ps : List (String × Option StoreErr)) :
    createResultsOf (deleteEntries ns ps) = [] := by
  induction ps with
  | nil => rfl
  | cons p t ih => simpa [deleteEntries, createResultsOf] using ih

theorem withFinalizer_fields (redis : RedisCRD) (nm : String) :
    (withFinalizer redis nm).Name = redis.Name
      ∧ (withFinalizer redis nm).Namespace = redis.Namespace
      ∧ (withFinalizer redis nm).Spec = redis.Spec
      ∧ (withFinalizer redis nm).DeletionTimestamp = redis.DeletionTimestamp := by
  unfold withFinalizer
  split <;> simp

theorem withFinalizer_finalizers (redis : RedisCRD) (nm : String) :
    ∃ app, (withFinalizer redis nm).Finalizers = redis.Finalizers ++ app
      ∧ (∀ x ∈ app, x = nm)
      ∧ (redis.Finalizers.Nodup → (withFinalizer redis nm).Finalizers.Nodup) := by
  unfold withFinalizer
  split
  · exact ⟨[], by simp, by simp, fun h => h⟩
  · rename_i hnot
    refine ⟨[nm], rfl, by simp, fun h => ?_⟩
    simp only
    rw [List.nodup_append]
    refine ⟨h, List.nodup_singleton nm, ?_⟩
    intro a ha hb
    simp only [List.mem_singleton] at hb
    subst hb
    exact hnot ha

theorem Create_spec (c : Client) (pod : Pod) :
    (c.Create pod).1.calls = c.calls ++ [(.createPod pod, (c.Create pod).2)]
      ∧ (c.Create pod).1.crds = c.crds
      ∧ (c.Create pod).1.faults = c.faults
      ∧ (∃ suffix, (c.Create pod).1.pods = c.pods ++ suffix) := by
  unfold Client.Create
  split
  · exact ⟨by simp [Client.record], rfl, rfl, [], by simp [Client.record]⟩
  · split
    · exact ⟨by simp [Client.record], rfl, rfl, [], by simp [Client.record]⟩
    · exact ⟨by simp [Client.record], rfl, rfl, [pod], by simp [Client.record]⟩

theorem CreateRedis_cases (c : Client) (nm : String) (redis : RedisCRD) :
    CreateRedis c nm redis = (c.record (.getPod redis.Namespace nm) none, redis, "", none)
      ∨ ∃ eg, CreateRedis c nm redis
          = (((c.record (.getPod redis.Namespace nm) (some eg)).Create (newPod nm redis)).1,
             withFinalizer redis nm, nm,
             ((c.record (.getPod redis.Namespace nm) (some eg)).Create (newPod nm redis)).2) := by
  unfold CreateRedis isExistPod Client.GetPod
  cases hf : c.faults c.calls.length with
  | some e =>
    right
    refine ⟨e, ?_⟩
    simp only [withFinalizer]
    split <;> simp_all [newPod]
  | none =>
    cases hp : c.pods.find? (Pod.hasKey redis.Namespace nm) with
    | some p => left; rfl
    | none =>
      right
      refine ⟨.notFound, ?_⟩
      simp only [withFinalizer]
      split <;> simp_all [newPod]

theorem CreateRedis_step (c : Client) (nm : String) (redis : RedisCRD) :
    ∃ (c1 : Client) (r1 : RedisCRD) (s : String) (res : Option StoreErr),
      CreateRedis c nm redis = (c1, r1, s, res)
      ∧ c1.crds = c.crds ∧ c1.faults = c.faults
      ∧ (∃ suffix, c1.pods = c.pods ++ suffix)
      ∧ (r1.Name = redis.Name ∧ r1.Namespace = redis.Namespace ∧ r1.Spec = redis.Spec
          ∧ r1.DeletionTimestamp = redis.DeletionTimestamp)
      ∧ (∃ app, r1.Finalizers = redis.Finalizers ++ app ∧ ∀ x ∈ app, x = nm)
      ∧ (redis.Finalizers.Nodup → r1.Finalizers.Nodup)
      ∧ ((c1.calls = c.calls ++ [(.getPod redis.Namespace nm, none)] ∧ res = none)
          ∨ ∃ eg, c1.calls = c.calls ++
              [(.getPod redis.Namespace nm, some eg), (.createPod (newPod nm redis), res)]) := by
  rcases CreateRedis_cases c nm redis with h | ⟨eg, h⟩
  · exact ⟨_, _, _, _, h, rfl, rfl, ⟨[], by simp [Client.record]⟩, ⟨rfl, rfl, rfl, rfl⟩,
      ⟨[], by simp, by simp⟩, fun hn => hn, Or.inl ⟨by simp [Client.record], rfl⟩⟩
  · obtain ⟨k1, k2, k3, k4⟩ :=
      Create_spec (c.record (.getPod redis.Namespace nm) (some eg)) (newPod nm redis)
    obtain ⟨app, a1, a2, a3⟩ := withFinalizer_finalizers redis nm
    refine ⟨_, _, _, _, h, k2, k3, k4, withFinalizer_fields redis nm, ⟨app, a1, a2⟩, a3,
      Or.inr ⟨eg, ?_⟩⟩
    rw [k1]
    simp [Client.record]

theorem createLoop_continue (left i : Nat) (c c1 : Client) (redis r1 : RedisCRD) (s : String)
    (res : Option StoreErr)
    (h : CreateRedis c (podNameOf redis.Name i) redis = (c1, r1, s, res))
    (hres : res = none ∨ res = some .alreadyExists) :
    createLoop (left + 1) i c redis = createLoop left (i + 1) c1 r1 := by
  rw [createLoop, h]
  rcases hres with rfl | rfl <;> simp

theorem createLoop_abort (left i : Nat) (c c1 : Client) (redis r1 : RedisCRD) (s : String)
    (e : StoreErr)
    (h : CreateRedis c (podNameOf redis.Name i) redis = (c1, r1, s, some e))
    (he : e ≠ .alreadyExists) :
    createLoop (left + 1) i c redis = (c1, r1, some e) := by
  rw [createLoop, h]
  simp [he]

theorem createLoop_frame (left : Nat) :
    ∀ (i : Nat) (c : Client) (redis : RedisCRD),
      (createLoop left i c redis).1.crds = c.crds
      ∧ (createLoop left i c redis).1.faults = c.faults
      ∧ (∃ suffix, (createLoop left i c redis).1.pods = c.pods ++ suffix)
      ∧ ((createLoop left i c redis).2.1.Name = redis.Name
          ∧ (createLoop left i c redis).2.1.Namespace = redis.Namespace
          ∧ (createLoop left i c redis).2.1.Spec = redis.Spec
          ∧ (createLoop left i c redis).2.1.DeletionTimestamp = redis.DeletionTimestamp)
      ∧ (∃ app, (createLoop left i c redis).2.1.Finalizers = redis.Finalizers ++ app
          ∧ ∀ x ∈ app, x ∈ podNames redis.Name i left)
      ∧ (redis.Finalizers.Nodup → (createLoop left i c redis).2.1.Finalizers.Nodup) := by
  induction left with
  | zero =>
    intro i c redis
    exact ⟨rfl, rfl, ⟨[], by simp [createLoop]⟩, ⟨rfl, rfl, rfl, rfl⟩,
      ⟨[], by simp [createLoop], by simp⟩, fun h => h⟩
  | succ left ih =>
    intro i c redis
    obtain ⟨c1, r1, s, res, h, f1, f2, ⟨sfx, f3⟩, ⟨n1, n2, n3, n4⟩, ⟨app, a1, a2⟩, f5, _⟩ :=
      CreateRedis_step c (podNameOf redis.Name i) redis
    have hAbort : (c1.crds = c.crds ∧ c1.faults = c.faults
        ∧ (∃ suffix, c1.pods = c.pods ++ suffix)
        ∧ (r1.Name = redis.Name ∧ r1.Namespace = redis.Namespace ∧ r1.Spec = redis.Spec
            ∧ r1.DeletionTimestamp = redis.DeletionTimestamp)
        ∧ (∃ app, r1.Finalizers = redis.Finalizers ++ app
            ∧ ∀ x ∈ app, x ∈ podNames redis.Name i (left + 1))
        ∧ (redis.Finalizers.Nodup → r1.Finalizers.Nodup)) :=
      ⟨f1, f2, ⟨sfx, f3⟩, ⟨n1, n2, n3, n4⟩,
        ⟨app, a1, fun x hx => by rw [podNames_succ, a2 x hx]; exact List.mem_cons_self _ _⟩, f5⟩
    have hCont : createLoop (left + 1) i c redis = createLoop left (i + 1) c1 r1 →
        ((createLoop (left + 1) i c redis).1.crds = c.crds
        ∧ (createLoop (left + 1) i c redis).1.faults = c.faults
        ∧ (∃ suffix, (createLoop (left + 1) i c redis).1.pods = c.pods ++ suffix)
        ∧ ((createLoop (left + 1) i c redis).2.1.Name = redis.Name
            ∧ (createLoop (left + 1) i c redis).2.1.Namespace = redis.Namespace
            ∧ (createLoop (left + 1) i c redis).2.1.Spec = redis.Spec
            ∧ (createLoop (left + 1) i c redis).2.1.DeletionTimestamp = redis.DeletionTimestamp)
        ∧ (∃ app, (createLoop (left + 1) i c redis).2.1.Finalizers = redis.Finalizers ++ app
            ∧ ∀ x ∈ app, x ∈ podNames redis.Name i (left + 1))
        ∧ (redis.Finalizers.Nodup → (createLoop (left + 1) i c redis).2.1.Finalizers.Nodup)) := by
      intro hloop
      obtain ⟨g1, g2, ⟨sfx2, g3⟩, ⟨m1, m2, m3, m4⟩, ⟨app2, b1, b2⟩, g5⟩ := ih (i + 1) c1 r1
      rw [hloop]
      refine ⟨g1.trans f1, g2.trans f2, ⟨sfx ++ sfx2, by rw [g3, f3, List.append_assoc]⟩,
        ⟨m1.trans n1, m2.trans n2, m3.trans n3, m4.trans n4⟩,
        ⟨app ++ app2, by rw [b1, a1, List.append_assoc], ?_⟩, fun hn => g5 (f5 hn)⟩
      intro x hx
      rw [podNames_succ]
      rcases List.mem_append.mp hx with hx | hx
      · rw [a2 x hx]; exact List.mem_cons_self _ _
      · exact List.mem_cons_of_mem _ (by rw [← n1]; exact b2 x hx)
    cases res with
    | none => exact hCont (createLoop_continue left i c c1 redis r1 s none h (Or.inl rfl))
    | some e =>
      by_cases he : e = .alreadyExists
      · subst he
        exact hCont (createLoop_continue left i c c1 redis r1 s _ h (Or.inr rfl))
      · rw [createLoop_abort left i c c1 redis r1 s e h he]
        exact hAbort

theorem CreateRedis_stepLog (c : Client) (nm : String) (redis : RedisCRD) :
    ∃ (c1 : Client) (r1 : RedisCRD) (s : String) (res : Option StoreErr)
      (sl : List (Call × Option StoreErr)),
      CreateRedis c nm redis = (c1, r1, s, res)
      ∧ c1.calls = c.calls ++ sl
      ∧ getsOf sl = [(redis.Namespace, nm)]
      ∧ deletesOf sl = [] ∧ updatesOf sl = []
      ∧ (∀ p ∈ createsOf sl, p = newPod nm redis)
      ∧ (∀ r ∈ createResultsOf sl, r = res)
      ∧ (∀ e, res = some e → ∃ eg,
          sl = [(.getPod redis.Namespace nm, some eg)] ++ [(.createPod (newPod nm redis), some e)])
      ∧ (r1.Name = redis.Name ∧ r1.Namespace = redis.Namespace ∧ r1.Spec = redis.Spec) := by
  obtain ⟨c1, r1, s, res, h, _, _, _, ⟨n1, n2, n3, _⟩, _, _, hlog⟩ := CreateRedis_step c nm redis
  rcases hlog with ⟨hc, hr⟩ | ⟨eg, hc⟩
  · subst hr
    exact ⟨c1, r1, s, none, _, h, hc, rfl, rfl, rfl, by simp [createsOf],
      by simp [createResultsOf], by simp, n1, n2, n3⟩
  · refine ⟨c1, r1, s, res, _, h, hc, rfl, rfl, rfl, by simp [createsOf],
      by simp [createResultsOf], ?_, n1, n2, n3⟩
    intro e he
    exact ⟨eg, by simp [he]⟩

theorem createLoop_log (left : Nat) :
    ∀ (i : Nat) (c : Client) (redis : RedisCRD),
      ∃ ext,
        (createLoop left i c redis).1.calls = c.calls ++ ext
        ∧ deletesOf ext = [] ∧ updatesOf ext = []
        ∧ ((createLoop left i c redis).2.2 = none →
            getsOf ext = (podNames redis.Name i left).map (fun nm => (redis.Namespace, nm))
            ∧ (∀ p ∈ createsOf ext, ∃ j, i ≤ j ∧ j < i + left
                ∧ p = newPod (podNameOf redis.Name j) redis)
            ∧ (∀ r ∈ createResultsOf ext, r = none ∨ r = some .alreadyExists))
        ∧ (∀ e, (createLoop left i c redis).2.2 = some e →
            e ≠ .alreadyExists ∧ ∃ j ext0, i ≤ j ∧ j < i + left
              ∧ ext = ext0 ++ [(.createPod (newPod (podNameOf redis.Name j) redis), some e)]
              ∧ (∀ p ∈ createsOf ext0, ∃ j', i ≤ j' ∧ j' < j
                  ∧ p = newPod (podNameOf redis.Name j') redis)
              ∧ (∀ r ∈ createResultsOf ext0, r = none ∨ r = some .alreadyExists)) := by
  induction left with
  | zero =>
    intro i c redis
    refine ⟨[], by simp [createLoop], rfl, rfl, ?_, ?_⟩
    · intro _
      simp [podNames, getsOf, createsOf, createResultsOf]
    · intro e he
      simp [createLoop] at he
  | succ left ih =>
    intro i c redis
    obtain ⟨c1, r1, s, res, sl, h, hcalls, sg, sd, su, sc, sr, sabort, n1, n2, n3⟩ :=
      CreateRedis_stepLog c (podNameOf redis.Name i) redis
    have hpod : ∀ nm, newPod nm r1 = newPod nm redis := fun nm => newPod_congr nm r1 redis n1 n2 n3
    by_cases hres : res = none ∨ res = some .alreadyExists
    · obtain ⟨ext, e1, e2, e3, e4, e5⟩ := ih (i + 1) c1 r1
      rw [createLoop_continue left i c c1 redis r1 s res h hres]
      refine ⟨sl ++ ext, by rw [e1, hcalls, List.append_assoc],
        by rw [deletesOf_append, sd, e2]; rfl, by rw [updatesOf_append, su, e3]; rfl, ?_, ?_⟩
      · intro hnone
        obtain ⟨g1, g2, g3⟩ := e4 hnone
        refine ⟨?_, ?_, ?_⟩
        · rw [getsOf_append, sg, g1, podNames_succ, n1, n2]
          rfl
        · intro p hp
          rw [createsOf_append] at hp
          rcases List.mem_append.mp hp with hp | hp
          · exact ⟨i, le_refl i, by omega, sc p hp⟩
          · obtain ⟨j, j1, j2, j3⟩ := g2 p hp
            exact ⟨j, by omega, by omega, by rw [j3, hpod, n1]⟩
        · intro r hr
          rw [createResultsOf_append] at hr
          rcases List.mem_append.mp hr with hr | hr
          · rw [sr r hr]; exact hres
          · exact g3 r hr
      · intro e he
        obtain ⟨k1, j, ext0, j1, j2, j3, j4, j5⟩ := e5 e he
        refine ⟨k1, j, sl ++ ext0, by omega, by omega, ?_, ?_, ?_⟩
        · rw [j3, hpod, n1, List.append_assoc]
        · intro p hp
          rw [createsOf_append] at hp
          rcases List.mem_append.mp hp with hp | hp
          · exact ⟨i, le_refl i, by omega, sc p hp⟩
          · obtain ⟨j', a1, a2, a3⟩ := j4 p hp
            exact ⟨j', by omega, a2, by rw [a3, hpod, n1]⟩
        · intro r hr
          rw [createResultsOf_append] at hr
          rcases List.mem_append.mp hr with hr | hr
          · rw [sr r hr]; exact hres
          · exact j5 r hr
    · obtain ⟨e, rfl, he⟩ : ∃ e, res = some e ∧ e ≠ .alreadyExists := by
        cases res with
        | none => exact absurd (Or.inl rfl) hres
        | some e => exact ⟨e, rfl, fun h => hres (Or.inr (by rw [h]))⟩
      obtain ⟨eg, hsl⟩ := sabort e rfl
      rw [createLoop_abort left i c c1 redis r1 s e h he]
      refine ⟨sl, hcalls, sd, su, ?_, ?_⟩
      · intro hnone
        simp at hnone
      · intro e' he'
        simp only [Option.some.injEq] at he'
        subst he'
        exact ⟨he, i, [(.getPod redis.Namespace (podNameOf redis.Name i), some eg)],
          le_refl i, by omega, hsl, by simp [createsOf], by simp [createResultsOf]⟩

/-! ## Scale-up under any fault schedule -/

theorem Reconcile_scaleUp_ok (c : Client) (req : Request) (redis : RedisCRD)
    (hf : c.faults c.calls.length = none) (hst : c.stored req = some redis)
    (hz : IsZero redis.DeletionTimestamp = true)
    (hle : (redis.Finalizers.length : Int) ≤ redis.Spec.Num)
    (hloop : (createLoop redis.Spec.Num.toNat 1
      (c.record (.getCRD req.Namespace req.Name) none) redis).2.2 = none) :
    Reconcile c req
      = ⟨((createLoop redis.Spec.Num.toNat 1
            (c.record (.getCRD req.Namespace req.Name) none) redis).1.Update
            (createLoop redis.Spec.Num.toNat 1
              (c.record (.getCRD req.Namespace req.Name) none) redis).2.1).1,
         some (createLoop redis.Spec.Num.toNat 1
            (c.record (.getCRD req.Namespace req.Name) none) redis).2.1,
         .val (Result.empty,
           ((createLoop redis.Spec.Num.toNat 1
              (c.record (.getCRD req.Namespace req.Name) none) redis).1.Update
              (createLoop redis.Spec.Num.toNat 1
                (c.record (.getCRD req.Namespace req.Name) none) redis).2.1).2)⟩ := by
  have hnot : ¬ ((redis.Finalizers.length : Int) > redis.Spec.Num) := by omega
  simp only [Reconcile, GetCRD_stored c req redis hf hst, hz, hnot, Bool.not_true,
    Bool.false_eq_true, ↓reduceIte]
  generalize createLoop redis.Spec.Num.toNat 1
    (c.record (.getCRD req.Namespace req.Name) none) redis = out at hloop ⊢
  obtain ⟨L, r, res⟩ := out
  simp only at hloop
  subst hloop
  rfl

theorem Reconcile_scaleUp_err (c : Client) (req : Request) (redis : RedisCRD) (e : StoreErr)
    (hf : c.faults c.calls.length = none) (hst : c.stored req = some redis)
    (hz : IsZero redis.DeletionTimestamp = true)
    (hle : (redis.Finalizers.length : Int) ≤ redis.Spec.Num)
    (hloop : (createLoop redis.Spec.Num.toNat 1
      (c.record (.getCRD req.Namespace req.Name) none) redis).2.2 = some e) :
    Reconcile c req
      = ⟨(createLoop redis.Spec.Num.toNat 1
            (c.record (.getCRD req.Namespace req.Name) none) redis).1,
         some (createLoop redis.Spec.Num.toNat 1
            (c.record (.getCRD req.Namespace req.Name) none) redis).2.1,
         .val (Result.empty, some e)⟩ := by
  have hnot : ¬ ((redis.Finalizers.length : Int) > redis.Spec.Num) := by omega
  simp only [Reconcile, GetCRD_stored c req redis hf hst, hz, hnot, Bool.not_true,
    Bool.false_eq_true, ↓reduceIte]
  generalize createLoop redis.Spec.Num.toNat 1
    (c.record (.getCRD req.Namespace req.Name) none) redis = out at hloop ⊢
  obtain ⟨L, r, res⟩ := out
  simp only at hloop
  subst hloop
  rfl

theorem Reconcile_scaleUp_paths (c : Client) (req : Request) (redis : RedisCRD)
    (hf : c.faults c.calls.length = none) (hst : c.stored req = some redis)
    (hz : IsZero redis.DeletionTimestamp = true)
    (hle : (redis.Finalizers.length : Int) ≤ redis.Spec.Num) :
    ∃ (r : RedisCRD) (ext : List (Call × Option StoreErr)),
      (Reconcile c req).redis = some r
      ∧ (r.Name = redis.Name ∧ r.Namespace = redis.Namespace ∧ r.Spec = redis.Spec
          ∧ r.DeletionTimestamp = redis.DeletionTimestamp)
      ∧ (∃ app, r.Finalizers = redis.Finalizers ++ app
          ∧ ∀ x ∈ app, x ∈ podNames redis.Name 1 redis.Spec.Num.toNat)
      ∧ (redis.Finalizers.Nodup → r.Finalizers.Nodup)
      ∧ (∃ suffix, (Reconcile c req).client.pods = c.pods ++ suffix)
      ∧ deletesOf ext = [] ∧ updatesOf ext = []
      ∧ ((∃ e, newCalls c (Reconcile c req).client
              = (.getCRD req.Namespace req.Name, none) :: (ext ++ [(.updateCRD r, e)])
            ∧ (Reconcile c req).ret = .val (Result.empty, e)
            ∧ getsOf ext = (podNames redis.Name 1 redis.Spec.Num.toNat).map
                (fun nm => (redis.Namespace, nm))
            ∧ (∀ p ∈ createsOf ext, ∃ j, 1 ≤ j ∧ j < 1 + redis.Spec.Num.toNat
                ∧ p = newPod (podNameOf redis.Name j) redis)
            ∧ (∀ x ∈ createResultsOf ext, x = none ∨ x = some .alreadyExists))
        ∨ (∃ e j ext0, e ≠ .alreadyExists ∧ 1 ≤ j ∧ j < 1 + redis.Spec.Num.toNat
            ∧ newCalls c (Reconcile c req).client
                = (.getCRD req.Namespace req.Name, none) :: ext
            ∧ ext = ext0 ++ [(.createPod (newPod (podNameOf redis.Name j) redis), some e)]
            ∧ (Reconcile c req).ret = .val (Result.empty, some e)
            ∧ (Reconcile c req).client.crds = c.crds
            ∧ (∀ p ∈ createsOf ext0, ∃ j', 1 ≤ j' ∧ j' < j
                ∧ p = newPod (podNameOf redis.Name j') redis)
            ∧ (∀ x ∈ createResultsOf ext0, x = none ∨ x = some .alreadyExists))) := by
  have hok := Reconcile_scaleUp_ok c req redis hf hst hz hle
  have herr := fun e => Reconcile_scaleUp_err c req redis e hf hst hz hle
  obtain ⟨f1, _, ⟨sfx, f3⟩, fields, happ, hnd⟩ := createLoop_frame redis.Spec.Num.toNat 1
    (c.record (.getCRD req.Namespace req.Name) none) redis
  obtain ⟨ext, e1, e2, e3, e4, e5⟩ := createLoop_log redis.Spec.Num.toNat 1
    (c.record (.getCRD req.Namespace req.Name) none) redis
  generalize createLoop redis.Spec.Num.toNat 1
    (c.record (.getCRD req.Namespace req.Name) none) redis = out at hok herr f1 f3 fields happ hnd e1 e4 e5
  obtain ⟨L, r, res⟩ := out
  simp only at hok herr f1 f3 fields happ hnd e1 e4 e5
  cases res with
  | none =>
    have hrec := hok rfl
    obtain ⟨u1, u2, _⟩ := Update_spec L r
    obtain ⟨g1, g2, g3⟩ := e4 rfl
    refine ⟨r, ext, by rw [hrec], fields, happ, hnd, ⟨sfx, ?_⟩, e2, e3,
      Or.inl ⟨(L.Update r).2, ?_, ?_, g1, g2, g3⟩⟩
    · rw [hrec]
      simp only []
      rw [u2, f3]
      rfl
    · exact newCalls_of_append _ _ _ (by
        rw [hrec]; simp only []; rw [u1, e1]; simp [Client.record])
    · rw [hrec]
  | some e =>
    have hrec := herr e rfl
    obtain ⟨k1, j, ext0, j1, j2, j3, j4, j5⟩ := e5 e rfl
    refine ⟨r, ext, by rw [hrec], fields, happ, hnd, ⟨sfx, ?_⟩, e2, e3,
      Or.inr ⟨e, j, ext0, k1, j1, j2, ?_, j3, ?_, ?_, j4, j5⟩⟩
    · rw [hrec]
      simp only []
      rw [f3]
      rfl
    · exact newCalls_of_append _ _ _ (by
        rw [hrec]; simp only []; rw [e1]; simp [Client.record])
    · rw [hrec]
    · rw [hrec]
      exact f1

/-- C13. AlreadyExists on create is success, on the scale-up path under any fault schedule.
(1) `Reconcile` never stops at a create that returned AlreadyExists: such a create is not
the last call of the run.  (2) When the creates of the run return nil or AlreadyExists,
every index `1..desiredCount` is processed (its existence check is issued, in order), the
parent update is issued as the last call, with the object left in memory, and `Reconcile`
returns what that update returned: success when the update succeeds. -/
theorem alreadyExists_continues (c : Client) (req : Request) (redis : RedisCRD)
    (hf : c.faults c.calls.length = none) (hst : c.stored req = some redis)
    (hz : IsZero redis.DeletionTimestamp = true)
    (hle : (redis.Finalizers.length : Int) ≤ redis.Spec.Num) :
    (∀ p, (newCalls c (Reconcile c req).client).getLast?
        ≠ some (.createPod p, some .alreadyExists))
      ∧ ((∀ x ∈ createResultsOf (newCalls c (Reconcile c req).client),
            x = none ∨ x = some .alreadyExists) →
          getsOf (newCalls c (Reconcile c req).client)
              = (podNames redis.Name 1 redis.Spec.Num.toNat).map (fun nm => (redis.Namespace, nm))
            ∧ ∃ r e, (Reconcile c req).redis = some r
                ∧ (newCalls c (Reconcile c req).client).getLast? = some (.updateCRD r, e)
                ∧ updatesOf (newCalls c (Reconcile c req).client) = [r]
                ∧ (Reconcile c req).ret = .val (Result.empty, e)) := by
  obtain ⟨r, ext, hr, _, _, _, _, hd, hu, hpath⟩ := Reconcile_scaleUp_paths c req redis hf hst hz hle
  rcases hpath with ⟨e, hnew, hret, hg, _, _⟩ | ⟨e, j, ext0, he, _, _, hnew, hext, hret, _, _, _⟩
  · refine ⟨?_, fun _ => ⟨?_, r, e, hr, ?_, ?_, hret⟩⟩
    · intro p
      rw [hnew, ← List.cons_append, List.getLast?_concat]
      simp
    · rw [hnew]
      simp [getsOf, getsOf_append, hg]
    · rw [hnew, ← List.cons_append, List.getLast?_concat]
    · rw [hnew]
      simp [updatesOf, updatesOf_append, hu]
  · have hlast : (newCalls c (Reconcile c req).client).getLast?
        = some (.createPod (newPod (podNameOf redis.Name j) redis), some e) := by
      rw [hnew, hext, ← List.cons_append, List.getLast?_concat]
    refine ⟨?_, fun hall => ?_⟩
    · intro p hp
      rw [hlast] at hp
      simp only [Option.some.injEq, Prod.mk.injEq] at hp
      exact he hp.2
    · exfalso
      have hmem : some e ∈ createResultsOf (newCalls c (Reconcile c req).client) := by
        rw [hnew, hext]
        simp [createResultsOf, createResultsOf_append]
      rcases hall _ hmem with h | h
      · simp at h
      · exact he (by simpa using h)

/-- Witness of C13: the existence check of pod 1 fails, its create returns AlreadyExists,
pods 2 and 3 are created, and the update follows. -/
theorem alreadyExists_continues_witness :
    createResultsOf (newCalls (racingClient (some (1, .unavailable)))
        (Reconcile (racingClient (some (1, .unavailable))) sampleReq).client)
        = [some .alreadyExists, none, none]
      ∧ ((∀ p, (newCalls (racingClient (some (1, .unavailable)))
            (Reconcile (racingClient (some (1, .unavailable))) sampleReq).client).getLast?
            ≠ some (.createPod p, some .alreadyExists))
        ∧ (getsOf (newCalls (racingClient (some (1, .unavailable)))
              (Reconcile (racingClient (some (1, .unavailable))) sampleReq).client)
              = (podNames sampleParent.Name 1 sampleParent.Spec.Num.toNat).map
                  (fun nm => (sampleParent.Namespace, nm))
            ∧ ∃ r e, (Reconcile (racingClient (some (1, .unavailable))) sampleReq).redis = some r
                ∧ (newCalls (racingClient (some (1, .unavailable)))
                    (Reconcile (racingClient (some (1, .unavailable))) sampleReq).client).getLast?
                    = some (.updateCRD r, e)
                ∧ updatesOf (newCalls (racingClient (some (1, .unavailable)))
                    (Reconcile (racingClient (some (1, .unavailable))) sampleReq).client) = [r]
                ∧ (Reconcile (racingClient (some (1, .unavailable))) sampleReq).ret
                    = .val (Result.empty, e))) :=
  ⟨by decide,
   (alreadyExists_continues (racingClient (some (1, .unavailable))) sampleReq sampleParent
      (by decide) (by decide) (by decide) (by decide)).1,
   (alreadyExists_continues (racingClient (some (1, .unavailable))) sampleReq sampleParent
      (by decide) (by decide) (by decide) (by decide)).2 (by decide)⟩

/-- C14. Any other creation error aborts, on the scale-up path under any fault schedule:
if a create returns an error `e` other than AlreadyExists, that create, for some index `j`
in `1..desiredCount`, is the last call of the run; every create of the run is for an index
up to `j`; there is no delete and no parent update; `Reconcile` returns `e`; the pods stored
before are still stored, followed by those created, and the parent records are untouched. -/
theorem create_error_aborts (c : Client) (req : Request) (redis : RedisCRD) (e : StoreErr)
    (hf : c.faults c.calls.length = none) (hst : c.stored req = some redis)
    (hz : IsZero redis.DeletionTimestamp = true)
    (hle : (redis.Finalizers.length : Int) ≤ redis.Spec.Num)
    (he : e ≠ .alreadyExists)
    (hbad : some e ∈ createResultsOf (newCalls c (Reconcile c req).client)) :
    ∃ j : Nat, 1 ≤ j ∧ (j : Int) ≤ redis.Spec.Num
      ∧ (newCalls c (Reconcile c req).client).getLast?
          = some (.createPod (newPod (podNameOf redis.Name j) redis), some e)
      ∧ (∀ p ∈ createsOf (newCalls c (Reconcile c req).client),
          ∃ j', 1 ≤ j' ∧ j' ≤ j ∧ p = newPod (podNameOf redis.Name j') redis)
      ∧ deletesOf (newCalls c (Reconcile c req).client) = []
      ∧ updatesOf (newCalls c (Reconcile c req).client) = []
      ∧ (Reconcile c req).ret = .val (Result.empty, some e)
      ∧ (∃ created, (Reconcile c req).client.pods = c.pods ++ created)
      ∧ (Reconcile c req).client.crds = c.crds := by
  obtain ⟨r, ext, _, _, _, _, hpods, hd, hu, hpath⟩ :=
    Reconcile_scaleUp_paths c req redis hf hst hz hle
  rcases hpath with ⟨e0, hnew, _, _, _, hres⟩ |
    ⟨e0, j, ext0, _, j1, j2, hnew, hext, hret, hcrds, hcre, hres⟩
  · exfalso
    rw [hnew] at hbad
    simp only [createResultsOf, createResultsOf_append, List.append_nil] at hbad
    rcases hres _ hbad with h | h
    · simp at h
    · exact he (by simpa using h)
  · have hee : e = e0 := by
      rw [hnew, hext] at hbad
      simp only [createResultsOf, createResultsOf_append, List.mem_append,
        List.mem_singleton] at hbad
      rcases hbad with h | h
      · rcases hres _ h with h' | h'
        · simp at h'
        · exact absurd (by simpa using h') he
      · simpa using h
    subst hee
    have hdel0 : deletesOf ext0 = [] := by
      have := hd
      rw [hext, deletesOf_append] at this
      exact (List.append_eq_nil.mp this).1
    have hupd0 : updatesOf ext0 = [] := by
      have := hu
      rw [hext, updatesOf_append] at this
      exact (List.append_eq_nil.mp this).1
    refine ⟨j, j1, by omega, ?_, ?_, ?_, ?_, hret, hpods, hcrds⟩
    · rw [hnew, hext, ← List.cons_append, List.getLast?_concat]
    · intro p hp
      rw [hnew, hext] at hp
      simp only [createsOf, createsOf_append, List.mem_append, List.mem_singleton] at hp
      rcases hp with hp | hp
      · obtain ⟨j', a1, a2, a3⟩ := hcre p hp
        exact ⟨j', a1, by omega, a3⟩
      · exact ⟨j, j1, le_refl j, hp⟩
    · rw [hnew]
      simp [deletesOf, hd]
    · rw [hnew]
      simp [updatesOf, hu]

/-- Witness of C14: pod 1 exists, pod 2 is created, the create of pod 3 fails with a
transient error. -/
theorem create_error_aborts_witness :
    ∃ j : Nat, 1 ≤ j ∧ (j : Int) ≤ sampleParent.Spec.Num
      ∧ (newCalls (racingClient (some (5, .unavailable)))
          (Reconcile (racingClient (some (5, .unavailable))) sampleReq).client).getLast?
          = some (.createPod (newPod (podNameOf sampleParent.Name j) sampleParent),
              some .unavailable)
      ∧ (∀ p ∈ createsOf (newCalls (racingClient (some (5, .unavailable)))
            (Reconcile (racingClient (some (5, .unavailable))) sampleReq).client),
          ∃ j', 1 ≤ j' ∧ j' ≤ j ∧ p = newPod (podNameOf sampleParent.Name j') sampleParent)
      ∧ deletesOf (newCalls (racingClient (some (5, .unavailable)))
          (Reconcile (racingClient (some (5, .unavailable))) sampleReq).client) = []
      ∧ updatesOf (newCalls (racingClient (some (5, .unavailable)))
          (Reconcile (racingClient (some (5, .unavailable))) sampleReq).client) = []
      ∧ (Reconcile (racingClient (some (5, .unavailable))) sampleReq).ret
          = .val (Result.empty, some .unavailable)
      ∧ (∃ created, (Reconcile (racingClient (some (5, .unavailable))) sampleReq).client.pods
          = (racingClient (some (5, .unavailable))).pods ++ created)
      ∧ (Reconcile (racingClient (some (5, .unavailable))) sampleReq).client.crds
          = (racingClient (some (5, .unavailable))).crds :=
  create_error_aborts (racingClient (some (5, .unavailable))) sampleReq sampleParent
    .unavailable (by decide) (by decide) (by decide) (by decide) (by decide) (by decide)

/-! ## What every path leaves of the parent -/

theorem clearRedisUpdateNumLoop_frame (num : Int) :
    ∀ (i : Nat) (c : Client) (redis : RedisCRD) (err : Option StoreErr),
      ∃ (ps : List (String × Option StoreErr)) (k : Nat),
        (clearRedisUpdateNumLoop num i c redis err).1.calls
            = c.calls ++ deleteEntries redis.Namespace ps
        ∧ (clearRedisUpdateNumLoop num i c redis err).2.1
            = { redis with Finalizers := redis.Finalizers.take k } := by
  have hsame : ∀ (c : Client) (redis : RedisCRD) (rt : Ret (Option StoreErr)),
      ∃ (ps : List (String × Option StoreErr)) (k : Nat),
        ((c, redis, rt) : Client × RedisCRD × Ret (Option StoreErr)).1.calls
            = c.calls ++ deleteEntries redis.Namespace ps
        ∧ ((c, redis, rt) : Client × RedisCRD × Ret (Option StoreErr)).2.1
            = { redis with Finalizers := redis.Finalizers.take k } := by
    intro c redis rt
    refine ⟨[], redis.Finalizers.length, by simp [deleteEntries], ?_⟩
    simp [List.take_length]
  intro i
  induction i with
  | zero =>
    intro c redis err
    rw [clearRedisUpdateNumLoop]
    split
    · exact hsame c redis .panic
    · exact hsame c redis (.val err)
  | succ i ih =>
    intro c redis err
    rw [clearRedisUpdateNumLoop]
    split
    · cases hget : redis.Finalizers.get? i with
      | none => exact hsame c redis .panic
      | some nm =>
        simp only []
        obtain ⟨hc, _, _⟩ := Delete_spec c redis.Namespace nm
        obtain ⟨ps, k, h1, h2⟩ := ih (c.Delete redis.Namespace nm).1
          { redis with Finalizers := redis.Finalizers.take i } (c.Delete redis.Namespace nm).2
        refine ⟨(nm, (c.Delete redis.Namespace nm).2) :: ps, min k i, ?_, ?_⟩
        · rw [h1, hc]
          simp [deleteEntries]
        · rw [h2]
          simp [List.take_take]
    · exact hsame c redis (.val err)

theorem clearRedisUpdateNum_frame (c : Client) (redis : RedisCRD) :
    ∃ (ps : List (String × Option StoreErr)) (k : Nat),
      (clearRedisUpdateNum c redis).2.1 = { redis with Finalizers := redis.Finalizers.take k }
      ∧ ((clearRedisUpdateNum c redis).1.calls = c.calls ++ deleteEntries redis.Namespace ps
          ∨ ∃ e, (clearRedisUpdateNum c redis).1.calls
              = c.calls ++ (deleteEntries redis.Namespace ps
                  ++ [(.updateCRD (clearRedisUpdateNum c redis).2.1, e)])) := by
  unfold clearRedisUpdateNum
  simp only []
  split
  · refine ⟨[], redis.Finalizers.length, by simp [List.take_length], Or.inl (by simp [deleteEntries])⟩
  · obtain ⟨ps, k, h1, h2⟩ := clearRedisUpdateNumLoop_frame redis.Spec.Num
      redis.Finalizers.length c redis none
    generalize clearRedisUpdateNumLoop redis.Spec.Num redis.Finalizers.length c redis none
      = out at h1 h2
    obtain ⟨L, r1, rt⟩ := out
    simp only at h1 h2
    cases rt with
    | panic => exact ⟨ps, k, h2, Or.inl h1⟩
    | val v =>
      cases v with
      | some e => exact ⟨ps, k, h2, Or.inl h1⟩
      | none =>
        obtain ⟨u1, _, _⟩ := Update_spec L r1
        refine ⟨ps, k, h2, Or.inr ⟨(L.Update r1).2, ?_⟩⟩
        simp only []
        rw [u1, h1, List.append_assoc]

theorem Reconcile_teardown_paths (c : Client) (req : Request) (redis : RedisCRD)
    (hf : c.faults c.calls.length = none) (hst : c.stored req = some redis)
    (hz : IsZero redis.DeletionTimestamp = false) :
    ∃ ps : List (String × Option StoreErr),
      ((Reconcile c req).redis = some { redis with Finalizers := [] }
          ∧ ∃ e, newCalls c (Reconcile c req).client
              = (.getCRD req.Namespace req.Name, none) :: (deleteEntries redis.Namespace ps
                  ++ [(.updateCRD { redis with Finalizers := [] }, e)]))
      ∨ ((Reconcile c req).redis = some redis
          ∧ ∃ x e, newCalls c (Reconcile c req).client
              = (.getCRD req.Namespace req.Name, none) :: (deleteEntries redis.Namespace ps
                  ++ [(.deletePod redis.Namespace x, some e)])) := by
  have hrec := Reconcile_teardown c req redis hf hst hz
  obtain ⟨_, _, hloop⟩ := clearRedisLoop_spec redis.Namespace redis.Finalizers
    (c.record (.getCRD req.Namespace req.Name) none)
  rcases hloop with ⟨ps, _, _, p3, p4⟩ | ⟨ps, x, post, e, _, _, _, p4, p5⟩
  · rw [clearRedis_of_loop_ok _ _ p4] at hrec
    simp only at hrec
    obtain ⟨u1, _, _⟩ := Update_spec
      (clearRedisLoop redis.Namespace redis.Finalizers
        (c.record (.getCRD req.Namespace req.Name) none)).1 { redis with Finalizers := [] }
    refine ⟨ps, Or.inl ⟨by rw [hrec],
      ((clearRedisLoop redis.Namespace redis.Finalizers
        (c.record (.getCRD req.Namespace req.Name) none)).1.Update
          { redis with Finalizers := [] }).2, ?_⟩⟩
    exact newCalls_of_append _ _ _ (by rw [hrec]; simp only []; rw [u1, p3]; simp [Client.record])
  · rw [clearRedis_of_loop_err _ _ e p5] at hrec
    simp only at hrec
    refine ⟨ps, Or.inr ⟨by rw [hrec], x, e, ?_⟩⟩
    exact newCalls_of_append _ _ _ (by rw [hrec]; simp only []; rw [p4]; simp [Client.record])

theorem Reconcile_scaleDown_paths (c : Client) (req : Request) (redis : RedisCRD)
    (hf : c.faults c.calls.length = none) (hst : c.stored req = some redis)
    (hz : IsZero redis.DeletionTimestamp = true)
    (hgt : (redis.Finalizers.length : Int) > redis.Spec.Num) :
    ∃ (ps : List (String × Option StoreErr)) (k : Nat),
      (Reconcile c req).redis = some { redis with Finalizers := redis.Finalizers.take k }
      ∧ (newCalls c (Reconcile c req).client
            = (.getCRD req.Namespace req.Name, none) :: deleteEntries redis.Namespace ps
          ∨ ∃ e, newCalls c (Reconcile c req).client
              = (.getCRD req.Namespace req.Name, none) :: (deleteEntries redis.Namespace ps
                  ++ [(.updateCRD { redis with Finalizers := redis.Finalizers.take k }, e)])) := by
  have hrec := Reconcile_scaleDown c req redis hf hst hz hgt
  obtain ⟨ps, k, h1, h2⟩ :=
    clearRedisUpdateNum_frame (c.record (.getCRD req.Namespace req.Name) none) redis
  have hcl : (Reconcile c req).client
        = (clearRedisUpdateNum (c.record (.getCRD req.Namespace req.Name) none) redis).1
      ∧ (Reconcile c req).redis
        = some (clearRedisUpdateNum (c.record (.getCRD req.Namespace req.Name) none) redis).2.1 := by
    rw [hrec]
    generalize clearRedisUpdateNum (c.record (.getCRD req.Namespace req.Name) none) redis = out
    obtain ⟨L, r1, rt⟩ := out
    cases rt <;> exact ⟨rfl, rfl⟩
  refine ⟨ps, k, by rw [hcl.2, h1], ?_⟩
  rcases h2 with h2 | ⟨e, h2⟩
  · left
    exact newCalls_of_append _ _ _ (by rw [hcl.1, h2]; simp [Client.record])
  · right
    refine ⟨e, newCalls_of_append _ _ _ ?_⟩
    rw [hcl.1, h2, h1]
    simp [Client.record]

theorem Reconcile_frame (c : Client) (req : Request) (redis : RedisCRD)
    (hf : c.faults c.calls.length = none) (hst : c.stored req = some redis) :
    ∃ r, (Reconcile c req).redis = some r
      ∧ (r.Name = redis.Name ∧ r.Namespace = redis.Namespace ∧ r.Spec = redis.Spec
          ∧ r.DeletionTimestamp = redis.DeletionTimestamp)
      ∧ (redis.Finalizers.Nodup → r.Finalizers.Nodup)
      ∧ (∀ u ∈ updatesOf (newCalls c (Reconcile c req).client), u = r)
      ∧ (∀ p ∈ createsOf (newCalls c (Reconcile c req).client),
          ∃ j : Nat, 1 ≤ j ∧ (j : Int) ≤ redis.Spec.Num
            ∧ p = newPod (podNameOf redis.Name j) redis) := by
  cases hz : IsZero redis.DeletionTimestamp with
  | false =>
    obtain ⟨ps, h⟩ := Reconcile_teardown_paths c req redis hf hst hz
    rcases h with ⟨hr, e, hnew⟩ | ⟨hr, x, e, hnew⟩
    · refine ⟨_, hr, ⟨rfl, rfl, rfl, rfl⟩, fun _ => List.nodup_nil, ?_, ?_⟩
      · rw [hnew]
        simp [updatesOf, updatesOf_append, updatesOf_deleteEntries]
      · rw [hnew]
        simp [createsOf, createsOf_append, createsOf_deleteEntries]
    · refine ⟨_, hr, ⟨rfl, rfl, rfl, rfl⟩, fun h => h, ?_, ?_⟩
      · rw [hnew]
        simp [updatesOf, updatesOf_append, updatesOf_deleteEntries]
      · rw [hnew]
        simp [createsOf, createsOf_append, createsOf_deleteEntries]
  | true =>
    by_cases hgt : (redis.Finalizers.length : Int) > redis.Spec.Num
    · obtain ⟨ps, k, hr, h⟩ := Reconcile_scaleDown_paths c req redis hf hst hz hgt
      refine ⟨_, hr, ⟨rfl, rfl, rfl, rfl⟩,
        fun h => List.Nodup.sublist (List.take_sublist k redis.Finalizers) h, ?_, ?_⟩
      · rcases h with hnew | ⟨e, hnew⟩ <;> rw [hnew] <;>
          simp [updatesOf, updatesOf_append, updatesOf_deleteEntries]
      · rcases h with hnew | ⟨e, hnew⟩ <;> rw [hnew] <;>
          simp [createsOf, createsOf_append, createsOf_deleteEntries]
    · have hle : (redis.Finalizers.length : Int) ≤ redis.Spec.Num := by omega
      obtain ⟨r, ext, hr, fields, _, hnd, _, _, hu, hpath⟩ :=
        Reconcile_scaleUp_paths c req redis hf hst hz hle
      refine ⟨r, hr, fields, hnd, ?_, ?_⟩
      · rcases hpath with ⟨e, hnew, _⟩ | ⟨e, j, ext0, _, _, _, hnew, _⟩ <;> rw [hnew] <;>
          simp [updatesOf, updatesOf_append, hu]
      · rcases hpath with ⟨e, hnew, _, _, hcre, _⟩ | ⟨e, j, ext0, _, j1, j2, hnew, hext, _, _, hcre, _⟩
        · rw [hnew]
          intro p hp
          simp only [createsOf, createsOf_append, List.append_nil] at hp
          obtain ⟨j, a1, a2, a3⟩ := hcre p hp
          exact ⟨j, a1, by omega, a3⟩
        · rw [hnew, hext]
          intro p hp
          simp only [createsOf, createsOf_append, List.mem_append, List.mem_singleton] at hp
          rcases hp with hp | hp
          · obtain ⟨j', a1, a2, a3⟩ := hcre p hp
            exact ⟨j', a1, by omega, a3⟩
          · exact ⟨j, j1, by omega, hp⟩

/-! ## Invariants of the tracker and of the parent record -/

/-- C16. The tracker is append-only during scale-up: for a parent that is not marked for
deletion with at most `desiredCount` tracked entries, under any fault schedule, the tracker
left in memory by `Reconcile` is the fetched tracker followed by appended entries, each of
them a pod name `<name>-i` with `1 <= i <= desiredCount`; and every update the run issues
carries exactly that object. -/
theorem tracker_append_only (c : Client) (req : Request) (redis : RedisCRD)
    (hf : c.faults c.calls.length = none) (hst : c.stored req = some redis)
    (hz : IsZero redis.DeletionTimestamp = true)
    (hle : (redis.Finalizers.length : Int) ≤ redis.Spec.Num) :
    ∃ r app, (Reconcile c req).redis = some r
      ∧ r.Finalizers = redis.Finalizers ++ app
      ∧ (∀ x ∈ app, ∃ i : Nat, 1 ≤ i ∧ (i : Int) ≤ redis.Spec.Num ∧ x = podNameOf redis.Name i)
      ∧ (∀ u ∈ updatesOf (newCalls c (Reconcile c req).client), u = r) := by
  obtain ⟨r, ext, hr, _, ⟨app, a1, a2⟩, _⟩ := Reconcile_scaleUp_paths c req redis hf hst hz hle
  obtain ⟨r', hr', _, _, hupd, _⟩ := Reconcile_frame c req redis hf hst
  have hrr : r' = r := by
    rw [hr] at hr'
    exact (Option.some.inj hr').symm
  subst hrr
  refine ⟨r', app, hr, a1, ?_, hupd⟩
  intro x hx
  obtain ⟨j, j1, j2, j3⟩ := mem_podNames.mp (a2 x hx)
  exact ⟨j, j1, by omega, j3.symm⟩

/-- Witness of C16: pod 1 exists, pods 2 and 3 are created and tracked. -/
theorem tracker_append_only_witness :
    ∃ r app, (Reconcile (racingClient none) sampleReq).redis = some r
      ∧ r.Finalizers = sampleParent.Finalizers ++ app
      ∧ (∀ x ∈ app, ∃ i : Nat, 1 ≤ i ∧ (i : Int) ≤ sampleParent.Spec.Num
          ∧ x = podNameOf sampleParent.Name i)
      ∧ (∀ u ∈ updatesOf (newCalls (racingClient none)
          (Reconcile (racingClient none) sampleReq).client), u = r) :=
  tracker_append_only (racingClient none) sampleReq sampleParent (by decide) (by decide)
    (by decide) (by decide)

/-- C18. The parent is read-only except for the tracker: on every path of `Reconcile`
(scale-up, scale-down, teardown) and under any fault schedule, the object passed to an
update call has the name, namespace, spec (desired count and port) and deletion timestamp
of the record fetched at the start. -/
theorem update_keeps_parent_fields (c : Client) (req : Request) (redis : RedisCRD)
    (hf : c.faults c.calls.length = none) (hst : c.stored req = some redis) :
    ∀ u ∈ updatesOf (newCalls c (Reconcile c req).client),
      u.Name = redis.Name ∧ u.Namespace = redis.Namespace ∧ u.Spec = redis.Spec
        ∧ u.DeletionTimestamp = redis.DeletionTimestamp := by
  obtain ⟨r, _, fields, _, hupd, _⟩ := Reconcile_frame c req redis hf hst
  intro u hu
  rw [hupd u hu]
  exact fields

/-- Witness of C18: the updates of a scale-up, of a scale-down and of a teardown. -/
theorem update_keeps_parent_fields_witness :
    (({ sampleParent with Finalizers := podNames "rediscrd-sample" 1 3 } : RedisCRD).Spec
        = sampleParent.Spec)
      ∧ (({ shrunkParent with Finalizers := podNames "rediscrd-sample" 1 2 } : RedisCRD).Spec
        = shrunkParent.Spec)
      ∧ (({ deletingParent with Finalizers := [] } : RedisCRD).DeletionTimestamp
        = deletingParent.DeletionTimestamp) :=
  ⟨(update_keeps_parent_fields freshClient sampleReq sampleParent (by decide) (by decide)
      { sampleParent with Finalizers := podNames "rediscrd-sample" 1 3 } (by decide)).2.2.1,
   (update_keeps_parent_fields shrunkClient sampleReq shrunkParent (by decide) (by decide)
      { shrunkParent with Finalizers := podNames "rediscrd-sample" 1 2 } (by decide)).2.2.1,
   (update_keeps_parent_fields (deletingClient none) sampleReq deletingParent (by decide)
      (by decide) { deletingParent with Finalizers := [] } (by decide)).2.2.2⟩

/-- C20. The tracker never gains a duplicate: for a parent whose fetched tracker has no
repeated identifier, on every path of `Reconcile` and under any fault schedule, the tracker
left in memory has no repeated identifier, and neither has the tracker of any object passed
to an update call. -/
theorem tracker_stays_nodup (c : Client) (req : Request) (redis : RedisCRD)
    (hf : c.faults c.calls.length = none) (hst : c.stored req = some redis)
    (hnd : redis.Finalizers.Nodup) :
    ∃ r, (Reconcile c req).redis = some r ∧ r.Finalizers.Nodup
      ∧ ∀ u ∈ updatesOf (newCalls c (Reconcile c req).client), u.Finalizers.Nodup := by
  obtain ⟨r, hr, _, hn, hupd, _⟩ := Reconcile_frame c req redis hf hst
  refine ⟨r, hr, hn hnd, ?_⟩
  intro u hu
  rw [hupd u hu]
  exact hn hnd

/-- Witness of C20: the self-healing run, where the recreated pod is already tracked. -/
theorem tracker_stays_nodup_witness :
    ∃ r, (Reconcile healClient sampleReq).redis = some r ∧ r.Finalizers.Nodup
      ∧ ∀ u ∈ updatesOf (newCalls healClient (Reconcile healClient sampleReq).client),
          u.Finalizers.Nodup :=
  tracker_stays_nodup healClient sampleReq trackedParent (by decide) (by decide) (by decide)

/-! ## Bounds of the scale-down loop -/

/-- C19. Scale-down indexing is safe: for every desired count `>= 0`, every tracker and
every fault schedule, `clearRedisUpdateNum` returns without an index-out-of-range panic;
the deletes it issues are those of the tracker entries from the last position down to
position `desiredCount + 1`, one per iteration, so the loop runs
`max 0 (len tracker - desiredCount)` times. -/
theorem scaleDown_index_in_bounds (c : Client) (redis : RedisCRD)
    (hnum : 0 ≤ redis.Spec.Num) :
    (clearRedisUpdateNum c redis).2.2 ≠ .panic
      ∧ deletesOf (newCalls c (clearRedisUpdateNum c redis).1)
          = ((redis.Finalizers.drop redis.Spec.Num.toNat).reverse).map
              (fun nm => (redis.Namespace, nm))
      ∧ (deletesOf (newCalls c (clearRedisUpdateNum c redis).1)).length
          = redis.Finalizers.length - redis.Spec.Num.toNat := by
  have hw : redis.Spec.Num = ((redis.Spec.Num.toNat : Nat) : Int) := (Int.toNat_of_nonneg hnum).symm
  have hmain : (clearRedisUpdateNum c redis).2.2 ≠ .panic
      ∧ deletesOf (newCalls c (clearRedisUpdateNum c redis).1)
          = ((redis.Finalizers.drop redis.Spec.Num.toNat).reverse).map
              (fun nm => (redis.Namespace, nm)) := by
    by_cases hlen : redis.Finalizers.length ≤ 0
    · have hnil : redis.Finalizers = [] := List.length_eq_zero.mp (by omega)
      have hcl : clearRedisUpdateNum c redis = (c, redis, .val none) := by
        simp [clearRedisUpdateNum, hnil]
      rw [hcl]
      simp [newCalls, deletesOf, hnil]
    · obtain ⟨ps, h1, h2, _, _, _, h6⟩ := clearRedisUpdateNumLoop_spec redis.Spec.Num.toNat
        redis.Finalizers.length c redis none rfl
      rw [← hw] at h2 h6
      unfold clearRedisUpdateNum
      simp only [hlen, ↓reduceIte]
      generalize clearRedisUpdateNumLoop redis.Spec.Num redis.Finalizers.length c redis none
        = out at h2 h6
      obtain ⟨L, r1, rt⟩ := out
      simp only at h2 h6
      subst h6
      cases hlast : (ps.map Prod.snd).getLast?.getD none with
      | some e =>
        simp only []
        refine ⟨by simp, ?_⟩
        rw [newCalls_of_append c L _ h2, deletesOf_deleteEntries, h1]
      | none =>
        simp only []
        obtain ⟨u1, _, _⟩ := Update_spec L r1
        refine ⟨by simp, ?_⟩
        rw [newCalls_of_append c (L.Update r1).1 _ (by rw [u1, h2, List.append_assoc]),
          deletesOf_append, deletesOf_deleteEntries, h1]
        simp [deletesOf]
  refine ⟨hmain.1, hmain.2, ?_⟩
  rw [hmain.2]
  simp

/-- Witness of C19: five tracked pods, desired count two, three iterations. -/
theorem scaleDown_index_in_bounds_witness :
    (clearRedisUpdateNum shrunkClient shrunkParent).2.2 ≠ .panic
      ∧ deletesOf (newCalls shrunkClient (clearRedisUpdateNum shrunkClient shrunkParent).1)
          = ((shrunkParent.Finalizers.drop shrunkParent.Spec.Num.toNat).reverse).map
              (fun nm => (shrunkParent.Namespace, nm))
      ∧ (deletesOf (newCalls shrunkClient
            (clearRedisUpdateNum shrunkClient shrunkParent).1)).length
          = shrunkParent.Finalizers.length - shrunkParent.Spec.Num.toNat :=
  scaleDown_index_in_bounds shrunkClient shrunkParent (by decide)

/-! ## Negative desired count, wide ports -/

/-- C15, as the code has it. A negative desired count with an empty tracker is not
surfaced: for a parent that is not marked for deletion whose desired count is negative and
whose tracker is empty, `Reconcile` issues no call after the fetch (no create, no delete, no
update), leaves the object as fetched and returns success. -/
theorem negative_count_empty_tracker (c : Client) (req : Request) (redis : RedisCRD)
    (hf : c.faults c.calls.length = none) (hst : c.stored req = some redis)
    (hz : IsZero redis.DeletionTimestamp = true)
    (hneg : redis.Spec.Num < 0) (hF : redis.Finalizers = []) :
    (Reconcile c req).ret = .val (Result.empty, none)
      ∧ newCalls c (Reconcile c req).client = [(.getCRD req.Namespace req.Name, none)]
      ∧ (Reconcile c req).redis = some redis := by
  have hgt : (redis.Finalizers.length : Int) > redis.Spec.Num := by
    rw [hF]
    simp only [List.length_nil, Nat.cast_zero]
    omega
  have hrec := Reconcile_scaleDown c req redis hf hst hz hgt
  have hcl : clearRedisUpdateNum (c.record (.getCRD req.Namespace req.Name) none) redis
      = (c.record (.getCRD req.Namespace req.Name) none, redis, .val none) := by
    simp [clearRedisUpdateNum, hF]
  rw [hcl] at hrec
  simp only at hrec
  refine ⟨by rw [hrec], ?_, by rw [hrec]⟩
  exact newCalls_of_append _ _ _ (by rw [hrec]; rfl)

/-- Witness of C15's amended statement: desired count `-1`, nothing tracked. -/
theorem negative_count_empty_tracker_witness :
    (Reconcile (negativeClient []) sampleReq).ret = .val (Result.empty, none)
      ∧ newCalls (negativeClient []) (Reconcile (negativeClient []) sampleReq).client
          = [(.getCRD sampleReq.Namespace sampleReq.Name, none)]
      ∧ (Reconcile (negativeClient []) sampleReq).redis = some (negativeParent []) :=
  negative_count_empty_tracker (negativeClient []) sampleReq (negativeParent []) (by decide)
    (by decide) (by decide) (by decide) (by decide)

/-- C15 as stated fails: with desired count `-1` and no store call failing, `Reconcile`
returns success when the tracker is empty, and panics (index out of range) after deleting
the tracked pod when the tracker has one entry; in neither case does it return an error. -/
theorem negative_count_not_surfaced :
    (negativeParent []).Spec.Num < 0
      ∧ IsZero (negativeParent []).DeletionTimestamp = true
      ∧ (Reconcile (negativeClient []) sampleReq).ret = .val (Result.empty, none)
      ∧ (Reconcile (negativeClient ["rediscrd-sample-1"]) sampleReq).ret = .panic
      ∧ deletesOf (newCalls (negativeClient ["rediscrd-sample-1"])
          (Reconcile (negativeClient ["rediscrd-sample-1"]) sampleReq).client)
          = [("default", "rediscrd-sample-1")] := by
  decide

theorem int32_of_inRange (x : Int) (hlo : -(2 : Int) ^ 31 ≤ x) (hhi : x < (2 : Int) ^ 31) :
    int32 x = x := by
  unfold int32
  norm_num at hlo hhi ⊢
  omega

/-- C17, as the code has it. Shape of a created child: under any fault schedule, every pod
that `Reconcile` creates for a parent has, for some index `i` in `1..desiredCount`, the name
`<parentName>-i`, the parent's namespace, one container named like the pod with the fixed
image and the single port `int32(port)`, and the parent as controlling owner; `int32(port)`
is `port` itself when `-2^31 <= port < 2^31`. -/
theorem created_pod_shape (c : Client) (req : Request) (redis : RedisCRD)
    (hf : c.faults c.calls.length = none) (hst : c.stored req = some redis) :
    ∀ p ∈ createsOf (newCalls c (Reconcile c req).client),
      ∃ i : Nat, 1 ≤ i ∧ (i : Int) ≤ redis.Spec.Num
        ∧ p.Name = podNameOf redis.Name i
        ∧ p.Namespace = redis.Namespace
        ∧ p.Containers = [{ Name := podNameOf redis.Name i, Image := "redis:5.0.14",
                            ImagePullPolicy := "IfNotPresent",
                            Ports := [{ ContainerPort := int32 redis.Spec.Port }] }]
        ∧ p.OwnerReferences = [{ Kind := "RedisCRD", Name := redis.Name, Controller := true }]
        ∧ (-(2 : Int) ^ 31 ≤ redis.Spec.Port → redis.Spec.Port < (2 : Int) ^ 31 →
            int32 redis.Spec.Port = redis.Spec.Port) := by
  obtain ⟨r, _, _, _, _, hcre⟩ := Reconcile_frame c req redis hf hst
  intro p hp
  obtain ⟨j, j1, j2, rfl⟩ := hcre p hp
  exact ⟨j, j1, j2, rfl, rfl, rfl, rfl, int32_of_inRange _⟩

/-- Witness of C17's amended statement: the second pod created for `rediscrd-sample`. -/
theorem created_pod_shape_witness :
    ∃ i : Nat, 1 ≤ i ∧ (i : Int) ≤ sampleParent.Spec.Num
      ∧ (newPod (podNameOf "rediscrd-sample" 2) sampleParent).Name
          = podNameOf sampleParent.Name i
      ∧ (newPod (podNameOf "rediscrd-sample" 2) sampleParent).Namespace = sampleParent.Namespace
      ∧ (newPod (podNameOf "rediscrd-sample" 2) sampleParent).Containers
          = [{ Name := podNameOf sampleParent.Name i, Image := "redis:5.0.14",
               ImagePullPolicy := "IfNotPresent",
               Ports := [{ ContainerPort := int32 sampleParent.Spec.Port }] }]
      ∧ (newPod (podNameOf "rediscrd-sample" 2) sampleParent).OwnerReferences
          = [{ Kind := "RedisCRD", Name := sampleParent.Name, Controller := true }]
      ∧ (-(2 : Int) ^ 31 ≤ sampleParent.Spec.Port → sampleParent.Spec.Port < (2 : Int) ^ 31 →
          int32 sampleParent.Spec.Port = sampleParent.Spec.Port) :=
  created_pod_shape freshClient sampleReq sampleParent (by decide) (by decide)
    (newPod (podNameOf "rediscrd-sample" 2) sampleParent) (by decide)

/-- C17 as stated fails: for the parent with port `2^32 + 6379`, the pod `Reconcile`
creates has container port `6379`, not the port of the parent. -/
theorem created_pod_port_truncated :
    widePortParent.Spec.Port = 4294973675
      ∧ (createsOf (newCalls widePortClient (Reconcile widePortClient sampleReq).client)).map
          (fun p => p.Containers.map (fun ct => ct.Ports))
          = [[[{ ContainerPort := 6379 }]]] := by
  decide

/-! ## Scale-down: failed and absent pods -/

/-- C11, the code at the failing input: scaling down from five tracked pods to two, the
delete of pod 5 fails with a transient error and the deletes of pods 4 and 3 succeed; the
update stores the first two entries, so `rediscrd-sample-5` is dropped from the stored
tracker although its delete failed and the pod is still in the store. -/
theorem scaleDown_drops_undeleted_pod :
    (newCalls { shrunkClient with faults := faultAt 1 .unavailable }
        (Reconcile { shrunkClient with faults := faultAt 1 .unavailable } sampleReq).client).filter
          (fun entry => decide (entry.2 ≠ none))
        = [(.deletePod "default" "rediscrd-sample-5", some .unavailable)]
      ∧ ((Reconcile { shrunkClient with faults := faultAt 1 .unavailable } sampleReq).client.stored
          sampleReq).map (fun r => r.Finalizers)
        = some ["rediscrd-sample-1", "rediscrd-sample-2"]
      ∧ (Reconcile { shrunkClient with faults := faultAt 1 .unavailable } sampleReq).client.pods.any
          (Pod.hasKey "default" "rediscrd-sample-5") = true := by
  decide

/-- C12, the code at the failing input: three tracked pods, desired count two, the third
pod already gone; its delete returns NotFound, `clearRedisUpdateNum` returns that error
without issuing the update, and the stored tracker keeps its three entries. -/
theorem scaleDown_notFound_blocks_update :
    deleteResultsOf (newCalls goneClient (Reconcile goneClient sampleReq).client)
        = [some .notFound]
      ∧ updatesOf (newCalls goneClient (Reconcile goneClient sampleReq).client) = []
      ∧ (clearRedisUpdateNum goneClient loweredParent).2.2 = .val (some .notFound)
      ∧ (Reconcile goneClient sampleReq).client.stored sampleReq = some loweredParent
      ∧ loweredParent.Finalizers.length = 3 := by
  decide

end RedisCrd
